import Mathlib

/-!
# msgq: message queue over UNIX domain datagram sockets

A shallow embedding of `msgq.c`: packet validation and duplication, the
receiver thread, the receive queue with its blocking and timed receive calls,
and the life cycle of the receiver.

Conventions of the embedding.

* `struct msgq_packet` is declared in `msgq.h`; its layout enters through
  `Platform` (header size, width of the `size` field, width of
  `size_t`/`ssize_t`).
* Machine integers are `Nat`/`Int` with explicit reduction modulo `2 ^ w`.
* A read or write outside the storage of an object is a `Fault`.
* The results of system and library calls (`recvfrom`, `malloc`,
  `pthread_cond_wait`, the clock) are inputs of the functions that make them.
-/

namespace Msgq

/-! ## Platform and constants -/

/-- One byte of memory (`char`). -/
abbrev Byte := Fin 256

/-- Layout parameters that `msgq.h` and the C implementation fix. -/
structure Platform where
  /-- Value of `sizeof(struct msgq_packet)`, which for a structure ending in a
  zero-length array is `offsetof(struct msgq_packet, data)`. -/
  hdr : Nat
  /-- Width in bits of the unsigned `size` member of `struct msgq_packet`. -/
  sizeBits : Nat
  /-- Width in bits of `size_t` and `ssize_t`. -/
  wordBits : Nat
  /-- Size of the receive buffer `pkbuf`. -/
  MSGQ_MSG_MAX : Nat
  /-- Size of `sun_path`, `sizeof(struct sockaddr_un) - sizeof(sa_family_t)`. -/
  UNIX_PATH_MAX : Nat
  /-- Width in bits of `int`. -/
  intBits : Nat
  /-- Width in bits of `long`, the type of `tv_nsec`. -/
  longBits : Nat
  /-- Width in bits of `time_t`, the type of `tv_sec`. -/
  timeBits : Nat
deriving DecidableEq, Repr

/-- Sanity of a platform: the header fits in the receive buffer, whose size is
a positive `ssize_t`, and the `size` member is no wider than `size_t`. -/
def Platform.wf (P : Platform) : Prop :=
  0 < P.sizeBits ∧ P.sizeBits ≤ P.wordBits ∧
  P.hdr ≤ P.MSGQ_MSG_MAX ∧ P.MSGQ_MSG_MAX < 2 ^ P.sizeBits ∧
  P.MSGQ_MSG_MAX < 2 ^ (P.wordBits - 1) ∧ 0 < P.UNIX_PATH_MAX

instance (P : Platform) : Decidable P.wf := by
  unfold Platform.wf; infer_instance

/-- Sanity of the types of the time arithmetic: `int` and `long` have at least
32 bits, so that `1000000000` is an `int`, and `time_t` has at least one. -/
def Platform.time_wf (P : Platform) : Prop :=
  32 ≤ P.intBits ∧ 32 ≤ P.longBits ∧ 0 < P.timeBits

instance (P : Platform) : Decidable P.time_wf := by
  unfold Platform.time_wf; infer_instance

/-- ILP32: 4-byte `size`, 4-byte pointer, the 8-byte header that the comment
above `main` describes.  `MSGQ_MSG_MAX` is defined in `msgq.h`; 4096 stands
for it, and 108 is `UNIX_PATH_MAX` on Linux.  `int`, `long` and `time_t` have
32 bits. -/
def ilp32 : Platform :=
  { hdr := 8, sizeBits := 32, wordBits := 32, MSGQ_MSG_MAX := 4096, UNIX_PATH_MAX := 108,
    intBits := 32, longBits := 32, timeBits := 32 }

/-- LP64 with a `size_t size` member (same stand-in for `MSGQ_MSG_MAX`); `int`
has 32 bits, `long` and `time_t` have 64. -/
def lp64 : Platform :=
  { hdr := 16, sizeBits := 64, wordBits := 64, MSGQ_MSG_MAX := 4096, UNIX_PATH_MAX := 108,
    intBits := 32, longBits := 64, timeBits := 64 }

/-- LP64 with a 32-bit `unsigned size` member, padded to the pointer (same
stand-in for `MSGQ_MSG_MAX`). -/
def lp64_u32 : Platform :=
  { hdr := 16, sizeBits := 32, wordBits := 64, MSGQ_MSG_MAX := 4096, UNIX_PATH_MAX := 108,
    intBits := 32, longBits := 64, timeBits := 64 }

def MSGQ_STAT_NONE : Int := -1
def MSGQ_STAT_INIT : Int := 0
def MSGQ_STAT_ALIVE : Int := 1
def MSGQ_STAT_DEAD : Int := 2

def EPERM : Nat := 1
def EAGAIN : Nat := 11
def EWOULDBLOCK : Nat := 11
def EADDRNOTAVAIL : Nat := 99
def ETIMEDOUT : Nat := 110

/-- Conversion of an integer to a signed type of `w` bits (two's complement). -/
def toSigned (w : Nat) (x : Int) : Int :=
  (x + 2 ^ (w - 1)) % 2 ^ w - 2 ^ (w - 1)

/-- Conversion of an integer to an unsigned type of `w` bits. -/
def toUnsigned (w : Nat) (x : Int) : Nat :=
  (x % 2 ^ w).toNat

/-! ## Packets and nodes -/

/-- Undefined behaviour made explicit. -/
inductive Fault where
  /-- An access outside the storage of the object. -/
  | out_of_bounds
  /-- Call of `abort()`. -/
  | abort
deriving DecidableEq, Repr

deriving instance DecidableEq for Except

/-- In-memory `struct msgq_packet`.  `data` is the storage that follows the
header (for the receive buffer: all of it, stale bytes included), `size` the
value of the `size` member.  `container` is the back pointer to the enclosing
`struct msgq_node`: `none` is `NULL`, and a node is seen through the pointer
as its `sender` member. -/
structure msgq_packet where
  size : Nat
  container : Option (List Byte)
  data : List Byte
deriving DecidableEq, Repr

/-- The payload of a packet: its first `size` bytes of data. -/
def msgq_packet.payload (p : msgq_packet) : List Byte :=
  p.data.take p.size

/-- A packet object that lies in memory: `size` is a value of its type, the
`size` payload bytes are inside the storage, and header, payload and one more
byte are within the range of `size_t`. -/
def msgq_packet.resident (P : Platform) (p : msgq_packet) : Prop :=
  p.size < 2 ^ P.sizeBits ∧ p.size ≤ p.data.length ∧ P.hdr + p.size + 1 < 2 ^ P.wordBits

instance (P : Platform) (p : msgq_packet) : Decidable (p.resident P) := by
  unfold msgq_packet.resident; infer_instance

/-- In-memory `struct msgq_node` (the `link` member is the position in the
queue). -/
structure msgq_node where
  sender : List Byte
  packet : msgq_packet
deriving DecidableEq, Repr

/-- `validate_packet`: returns the status and the packet as left in the
buffer. -/
def validate_packet (P : Platform) (packet : msgq_packet) (len : Int) : Int × msgq_packet :=
  let estimated := toSigned P.wordBits (len - toSigned P.wordBits P.hdr)
  if estimated < 0 then
    (-1, packet)
  else
    let packet :=
      if estimated < toSigned P.wordBits packet.size then
        { packet with size := toUnsigned P.sizeBits estimated }
      else packet
    (0, { packet with container := none })

/-! ## Library calls -/

/-- Outcome of `malloc`: `none` is `NULL`, `some junk` a block whose byte at
offset `i` holds `junk i` (it is not initialised). -/
abbrev Malloc := Option (Nat → Byte)

/-- The block of `n` bytes that `malloc` hands out. -/
def Malloc.block (junk : Nat → Byte) (n : Nat) : List Byte :=
  (List.range n).map junk

/-- The characters of the C string stored at the start of `a`: the bytes
before the first NUL; a `Fault` when `a` holds no NUL. -/
def cstr (a : List Byte) : Except Fault (List Byte) :=
  if (0 : Byte) ∈ a then .ok (a.takeWhile (fun c => c ≠ 0)) else .error .out_of_bounds

/-- The `n` bytes that `strncpy(dst, src, n)` stores, for the C string with
characters `src`: the first `n` characters, padded with NUL when the string is
shorter than `n` (no NUL is stored when it is not). -/
def strncpy (src : List Byte) (n : Nat) : List Byte :=
  src.take n ++ List.replicate (n - src.length) 0

/-- Test `strncmp(a, b, n) == 0` on the bytes stored at `a` and `b`: compares
at most `n` characters and stops after a NUL; reading past the end of either
storage is a `Fault`. -/
def strncmp_eq : List Byte → List Byte → Nat → Except Fault Bool
  | _, _, 0 => .ok true
  | [], _, _ + 1 => .error .out_of_bounds
  | _ :: _, [], _ + 1 => .error .out_of_bounds
  | a :: as, b :: bs, n + 1 =>
    if a ≠ b then .ok false
    else if a = 0 then .ok true
    else strncmp_eq as bs n

/-- The string literal `"shutdown"` with its terminator. -/
def shutdown_literal : List Byte := [115, 104, 117, 116, 100, 111, 119, 110, 0]

/-- The 8 characters of `shutdown`. -/
def shutdown8 : List Byte := [115, 104, 117, 116, 100, 111, 119, 110]

/-! ## Duplicating a packet, creating a node -/

/-- `msgq_copy_packet`: `.ok none` is `NULL` (allocation failure). -/
def msgq_copy_packet (P : Platform) (m : Malloc) (packet : msgq_packet) :
    Except Fault (Option msgq_packet) :=
  let size := (P.hdr + packet.size) % 2 ^ P.wordBits
  -- `packet->size - 1` in the unsigned type of `size`
  let last := (packet.size + 2 ^ P.sizeBits - 1) % 2 ^ P.sizeBits
  match packet.data.get? last with
  | none => .error .out_of_bounds
  | some c =>
    let newsize := if c ≠ 0 then (size + 1) % 2 ^ P.wordBits else size
    match m with
    | none => .ok none
    | some junk =>
      -- `memcpy(p, packet, size)` into a block of `newsize` bytes
      if size < P.hdr ∨ packet.data.length < size - P.hdr ∨ newsize < size then
        .error .out_of_bounds
      else
        let block := Malloc.block (fun i => junk (P.hdr + i)) (newsize - P.hdr)
        let p : msgq_packet :=
          { size := packet.size, container := packet.container,
            data := packet.data.take (size - P.hdr) ++ block.drop (size - P.hdr) }
        if newsize > size then
          -- `p->data[p->size] = 0`
          if p.size < p.data.length then .ok (some { p with data := p.data.set p.size 0 })
          else .error .out_of_bounds
        else .ok (some p)

/-- `msgq_node_create`: `m_node` and `m_packet` are the outcomes of the two
calls of `malloc`; `.ok none` is `NULL`.  The junk of the node block is indexed
from the start of `sender`. -/
def msgq_node_create (P : Platform) (m_node m_packet : Malloc) (sender : List Byte)
    (packet : msgq_packet) : Except Fault (Option msgq_node) :=
  match m_node with
  | none => .ok none
  | some junk =>
    match msgq_copy_packet P m_packet packet with
    | .error f => .error f
    | .ok none => .ok none
    | .ok (some q) =>
      let arr := strncpy sender (P.UNIX_PATH_MAX - 1) ++
        (Malloc.block junk P.UNIX_PATH_MAX).drop (P.UNIX_PATH_MAX - 1)
      .ok (some { sender := arr, packet := { q with container := some arr } })

/-- `msgq_pkt_sender`: `none` is `NULL`, otherwise the `sender` array of the
enclosing node. -/
def msgq_pkt_sender (packet : msgq_packet) : Option (List Byte) :=
  match packet.container with
  | none => none
  | some sender => some sender

/-! ## The endpoint -/

/-- Modelled from the spec: `edque_push_back` of `elist.h`, which is not among
the sources; section 6 of the spec asks for `push_back` on an ordered
sequence. -/
def edque_push_back (q : List msgq_node) (np : msgq_node) : List msgq_node :=
  q ++ [np]

/-- Modelled from the spec: `edque_pop_front` of `elist.h`, which is not among
the sources; section 6 of the spec asks for `pop_front`, which unlinks and
returns the oldest member, `NULL` (`none`) on an empty sequence. -/
def edque_pop_front : List msgq_node → Option msgq_node × List msgq_node
  | [] => (none, [])
  | np :: q => (some np, q)

/-- The members of `struct msgq_` that the calls below read or write (the
buffer `pkbuf` enters through `RecvFrom`, the synchronisation objects through
the order of the steps). -/
structure msgq_ where
  fd : Int
  address : List Byte
  broadcast : Int
  recvq : List msgq_node
  recvs : Nat
  receiver_status : Int
deriving DecidableEq, Repr

/-- Increment `msgq->recvs++` of a `size_t`. -/
def recvs_inc (P : Platform) (n : Nat) : Nat := (n + 1) % 2 ^ P.wordBits

/-- Decrement `msgq->recvs--` of a `size_t`. -/
def recvs_dec (P : Platform) (n : Nat) : Nat := (n + 2 ^ P.wordBits - 1) % 2 ^ P.wordBits

/-- What one call of `recvfrom` in the receiver hands back: its return value,
`errno`, the C string in `addr.sun_path`, and the receive buffer seen as a
packet. -/
structure RecvFrom where
  len : Int
  errno : Nat
  sun_path : List Byte
  pkbuf : msgq_packet
deriving DecidableEq, Repr

/-- The exits of the body of the receiver loop. -/
inductive Branch where
  /-- `recvfrom` failed with `EAGAIN`/`EWOULDBLOCK`: `continue`. -/
  | retry
  /-- `recvfrom` failed otherwise: `break`. -/
  | fatal
  /-- `validate_packet` rejected the datagram: `continue`. -/
  | invalid
  /-- The control message: `break`. -/
  | shutdown
  /-- `msgq_node_create` returned `NULL`: `continue`. -/
  | nomem
  /-- The node was appended; `all` tells `pthread_cond_broadcast` from
  `pthread_cond_signal`. -/
  | enqueued (all : Bool)
deriving DecidableEq, Repr

/-- Whether the exit is a `break`. -/
def Branch.leaves_loop : Branch → Bool
  | .fatal => true
  | .shutdown => true
  | _ => false

/-- One pass through the body of `while (1)` in `msgq_receiver`. -/
def msgq_receiver_body (P : Platform) (msgq : msgq_) (r : RecvFrom)
    (m_node m_packet : Malloc) : Except Fault (Branch × msgq_) :=
  if r.len < 0 then
    if r.errno = EAGAIN ∨ r.errno = EWOULDBLOCK then .ok (.retry, msgq)
    else .ok (.fatal, msgq)
  else
    let v := validate_packet P r.pkbuf r.len
    if v.1 < 0 then .ok (.invalid, msgq)
    else
      let packet := v.2
      let self_control : Except Fault Bool :=
        if r.sun_path = msgq.address then strncmp_eq packet.data shutdown_literal 8
        else .ok false
      match self_control with
      | .error f => .error f
      | .ok true => .ok (.shutdown, msgq)
      | .ok false =>
        match msgq_node_create P m_node m_packet r.sun_path packet with
        | .error f => .error f
        | .ok none => .ok (.nomem, msgq)
        | .ok (some np) =>
          .ok (.enqueued (msgq.broadcast ≠ 0),
            { msgq with recvq := edque_push_back msgq.recvq np,
                        recvs := recvs_inc P msgq.recvs })

/-- `msgq_recv`: the returned pointer (`none` is `NULL`) and the endpoint
afterwards. -/
def msgq_recv (P : Platform) (msgq : msgq_) : Option msgq_packet × msgq_ :=
  match edque_pop_front msgq.recvq with
  | (none, _) => (none, msgq)
  | (some np, q) => (some np.packet, { msgq with recvq := q, recvs := recvs_dec P msgq.recvs })

/-! ## Blocking and timed receive -/

/-- A `struct timespec`. -/
structure timespec where
  tv_sec : Int
  tv_nsec : Int
deriving DecidableEq, Repr

/-- `timespec_subtract(result, x, y)`: the return value, `*result`, and `*y`
as the call leaves it (the carry is performed on `*y`).  The arithmetic is in
the types of the code: `time_t` for `tv_sec`, `long` for `tv_nsec` and for the
quotients, `int` for the local `nsec` and for the product `1000000000 * nsec`;
a value outside the range of its type is reduced to it (two's complement), and
`/` truncates. -/
def timespec_subtract (P : Platform) (x y : timespec) : Int × timespec × timespec :=
  let y1 : timespec :=
    if x.tv_nsec < y.tv_nsec then
      let nsec := toSigned P.intBits (toSigned P.longBits
        ((toSigned P.longBits (y.tv_nsec - x.tv_nsec)).tdiv 1000000000 + 1))
      { tv_sec := toSigned P.timeBits (y.tv_sec + nsec),
        tv_nsec := toSigned P.longBits (y.tv_nsec - toSigned P.intBits (1000000000 * nsec)) }
    else y
  let y2 : timespec :=
    if toSigned P.longBits (x.tv_nsec - y1.tv_nsec) > 1000000000 then
      let nsec := toSigned P.intBits
        ((toSigned P.longBits (x.tv_nsec - y1.tv_nsec)).tdiv 1000000000)
      { tv_sec := toSigned P.timeBits (y1.tv_sec - nsec),
        tv_nsec := toSigned P.longBits (y1.tv_nsec + toSigned P.intBits (1000000000 * nsec)) }
    else y1
  let result : timespec :=
    { tv_sec := toSigned P.timeBits (x.tv_sec - y2.tv_sec),
      tv_nsec := toSigned P.longBits (x.tv_nsec - y2.tv_nsec) }
  (if x.tv_sec < y2.tv_sec then 1 else 0, result, y2)

/-- One return of `pthread_cond_wait`/`pthread_cond_timedwait` on `recv_cond`:
the value returned, the shared members of the endpoint as the other threads
left them while the mutex was released, and the time that the following
`gettime(&now)` stores. -/
structure Wake where
  ret : Nat
  recvq : List msgq_node
  recvs : Nat
  receiver_status : Int
  now : timespec
deriving DecidableEq, Repr

/-- The endpoint as found when the wait returns. -/
def Wake.apply (w : Wake) (msgq : msgq_) : msgq_ :=
  { msgq with recvq := w.recvq, recvs := w.recvs, receiver_status := w.receiver_status }

/-- The endpoint after the other threads acted during the given waits, in
order. -/
def Wake.replay (msgq : msgq_) (wakes : List Wake) : msgq_ :=
  wakes.foldl (fun m w => w.apply m) msgq

/-- Result of a receive call.  `blocked` says that the caller is still inside
the condition wait (no wake is left); `ret` is the pointer returned, `errno`
the value of `errno` afterwards, `abstime` the caller's deadline object
afterwards and `waits` the number of condition waits that returned. -/
structure RecvResult where
  blocked : Bool
  ret : Option msgq_packet
  errno : Nat
  msgq : msgq_
  abstime : Option timespec
  waits : Nat
deriving DecidableEq, Repr

/-- Loop of `msgq_recv_timedwait`, entered with the mutex held.  `errno` is the
value of `errno` so far, `wakes` the returns of the condition waits to come,
`k` the number of waits done. -/
def msgq_recv_timedwait_loop (P : Platform) (msgq : msgq_) (abstime : Option timespec)
    (errno : Nat) (wakes : List Wake) (k : Nat) : RecvResult :=
  match edque_pop_front msgq.recvq, wakes with
  | (some np, q), _ =>
    { blocked := false, ret := some np.packet, errno := errno,
      msgq := { msgq with recvq := q, recvs := recvs_dec P msgq.recvs },
      abstime := abstime, waits := k }
  | (none, _), [] =>
    if msgq.receiver_status = MSGQ_STAT_DEAD then
      { blocked := false, ret := none, errno := EADDRNOTAVAIL, msgq := msgq,
        abstime := abstime, waits := k }
    else
      -- inside the condition wait, which has not returned
      { blocked := true, ret := none, errno := errno, msgq := msgq,
        abstime := abstime, waits := k }
  | (none, _), w :: ws =>
    if msgq.receiver_status = MSGQ_STAT_DEAD then
      { blocked := false, ret := none, errno := EADDRNOTAVAIL, msgq := msgq,
        abstime := abstime, waits := k }
    else
      -- the wait returns `w.ret`, the mutex is held again
      let msgq1 := w.apply msgq
      if w.ret ≠ 0 then
        { blocked := false, ret := none, errno := w.ret, msgq := msgq1,
          abstime := abstime, waits := k + 1 }
      else
        match abstime with
        | some t =>
          let d := timespec_subtract P w.now t
          if d.1 = 0 then
            { blocked := false, ret := none, errno := errno, msgq := msgq1,
              abstime := some d.2.2, waits := k + 1 }
          else msgq_recv_timedwait_loop P msgq1 (some d.2.2) errno ws (k + 1)
        | none => msgq_recv_timedwait_loop P msgq1 none errno ws (k + 1)

/-- `msgq_recv_timedwait(msgq, abstime)`; `abstime = none` is `NULL`. -/
def msgq_recv_timedwait (P : Platform) (msgq : msgq_) (abstime : Option timespec)
    (errno : Nat) (wakes : List Wake) : RecvResult :=
  msgq_recv_timedwait_loop P msgq abstime errno wakes 0

/-- `msgq_recv_wait(msgq)`. -/
def msgq_recv_wait (P : Platform) (msgq : msgq_) (errno : Nat) (wakes : List Wake) :
    RecvResult :=
  msgq_recv_timedwait P msgq none errno wakes

/-! ## Waiting for the receiver -/

/-- One return of `pthread_cond_wait` on `stat_cond`: the value returned and
`receiver_status` as found with the mutex held again. -/
structure StatWake where
  ret : Nat
  receiver_status : Int
deriving DecidableEq, Repr

/-- Result of `msgq_wait`. -/
inductive WaitResult where
  /-- The assertion on `status` failed. -/
  | aborted
  /-- Still inside the condition wait, after `waits` returns of it. -/
  | blocked (waits : Nat)
  /-- Returned `ret` with `errno` after `waits` condition waits. -/
  | returned (ret : Int) (errno : Nat) (waits : Nat)
deriving DecidableEq, Repr

/-- The `while (msgq->receiver_status < status)` loop of `msgq_wait`:
`none` while blocked, else `saved_errno`, the `receiver_status` read after the
loop and the number of waits. -/
def msgq_wait_loop (status : Int) (receiver_status : Int) (wakes : List StatWake) (k : Nat) :
    Option (Nat × Int × Nat) :=
  if receiver_status < status then
    match wakes with
    | [] => none
    | w :: ws =>
      if w.ret ≠ 0 then some (w.ret, w.receiver_status, k + 1)
      else msgq_wait_loop status w.receiver_status ws (k + 1)
  else some (0, receiver_status, k)

/-- `msgq_wait(msgq, status)`. -/
def msgq_wait (msgq : msgq_) (status : Int) (errno : Nat) (wakes : List StatWake) :
    WaitResult :=
  if ¬ (status ≥ MSGQ_STAT_NONE ∧ status ≤ MSGQ_STAT_DEAD) then .aborted
  else if status = MSGQ_STAT_NONE then .returned msgq.receiver_status errno 0
  else if status ≤ msgq.receiver_status then .returned msgq.receiver_status errno 0
  else
    match msgq_wait_loop status msgq.receiver_status wakes 0 with
    | none => .blocked wakes.length
    | some (saved_errno, st, k) =>
      if saved_errno ≠ 0 then .returned (-1) saved_errno k
      else .returned st errno k

/-! ## Sending -/

/-- What `sendto` is given: the bytes stored in `addr.sun_path`, the frame
and the number of bytes to transmit. -/
structure Datagram where
  dest : List Byte
  packet : msgq_packet
  len : Nat
deriving DecidableEq, Repr

/-- `msgq_send_`: `sendto_ret` is the value that `sendto` returns.  A frame
longer than the storage of `packet` is a `Fault`. -/
def msgq_send_ (P : Platform) (receiver : List Byte) (packet : msgq_packet)
    (sendto_ret : Int) : Except Fault (Int × Datagram) :=
  let n := (P.hdr + packet.size) % 2 ^ P.wordBits
  if n < P.hdr ∨ packet.data.length < n - P.hdr then .error .out_of_bounds
  else
    let d : Datagram :=
      { dest := strncpy receiver (P.UNIX_PATH_MAX - 1),
        packet := { packet with data := packet.data.take (n - P.hdr) }, len := n }
    .ok (if sendto_ret < 0 then -1 else 0, d)

/-- `msgq_send(msgq, receiver, packet, size)`: the return value and the
datagram handed to `sendto`, if any. -/
def msgq_send (P : Platform) (m : Malloc) (receiver : List Byte) (packet : List Byte)
    (size : Nat) (sendto_ret : Int) : Except Fault (Int × Option Datagram) :=
  let n := (P.hdr + size) % 2 ^ P.wordBits
  match m with
  | none => .ok (-1, none)
  | some junk =>
    -- `memcpy(p->data, packet, size)` into a block of `n` bytes
    if packet.length < size ∨ n < P.hdr ∨ n - P.hdr < size then .error .out_of_bounds
    else
      let block := Malloc.block (fun i => junk (P.hdr + i)) (n - P.hdr)
      let p : msgq_packet :=
        { size := size % 2 ^ P.sizeBits, container := none,
          data := packet.take size ++ block.drop size }
      match msgq_send_ P receiver p sendto_ret with
      | .error f => .error f
      | .ok (ret, d) => .ok (ret, some d)

/-- `msgq_send_string(msgq, receiver, fmt, ...)`, where `text` holds the
characters that `vsnprintf` renders: the payload is the text and its
terminator. -/
def msgq_send_string (P : Platform) (m : Malloc) (receiver text : List Byte)
    (sendto_ret : Int) : Except Fault (Int × Option Datagram) :=
  match m with
  | none => .ok (-1, none)
  | some _ =>
    let p : msgq_packet :=
      { size := (text.length + 1) % 2 ^ P.sizeBits, container := none, data := text ++ [0] }
    match msgq_send_ P receiver p sendto_ret with
    | .error f => .error f
    | .ok (ret, d) => .ok (ret, some d)

/-- The first statement of `msgq_close`:
`msgq_send_string(msgq, msgq->address, "shutdown")`. -/
def msgq_close_send (P : Platform) (m : Malloc) (msgq : msgq_) (sendto_ret : Int) :
    Except Fault (Int × Option Datagram) :=
  msgq_send_string P m msgq.address shutdown8 sendto_ret

/-- What `recvfrom` hands back when the datagram `d`, sent from the socket
bound to `sender`, arrives whole in a buffer whose data area held `stale`. -/
def recvfrom_whole (P : Platform) (d : Datagram) (sender : List Byte) (stale : List Byte)
    (errno : Nat) : RecvFrom :=
  { len := d.len, errno := errno, sun_path := sender,
    pkbuf := { size := d.packet.size, container := d.packet.container,
               data := d.packet.data.take (d.len - P.hdr) ++ stale.drop (d.len - P.hdr) } }

/-! ## Opening and closing -/

/-- The releasing calls of `msgq_open` and `msgq_close`. -/
inductive Cleanup where
  | cond_destroy_stat
  | cond_destroy_recv
  | unlock
  | close_fd
  | mutex_destroy
  | free_pkbuf
  | free_msgq
deriving DecidableEq, Repr

/-- Outcomes of the calls that `msgq_open` makes. -/
structure OpenEnv where
  /-- Whether `malloc(sizeof(*p))` succeeds. -/
  malloc_msgq : Bool
  /-- Whether `malloc(MSGQ_MSG_MAX)` succeeds. -/
  malloc_pkbuf : Bool
  /-- Value of `errno` after a failing call. -/
  errno : Nat
  /-- Return value of `pthread_mutex_init`. -/
  mutex_init : Nat
  /-- Return value of `pthread_cond_init(&p->recv_cond)`. -/
  recv_cond_init : Nat
  /-- Return value of `pthread_cond_init(&p->stat_cond)`. -/
  stat_cond_init : Nat
  /-- Outcome of `msgq_get_listener`: `none` is `-1`, else the descriptor (not
  negative) and the bound address. -/
  get_listener : Option (Nat × List Byte)
  /-- Whether `msgq_start_receiver` returns `0`. -/
  start_receiver : Bool
deriving DecidableEq, Repr

/-- Result of `msgq_open`. -/
inductive OpenResult where
  /-- The endpoint, as initialised when the mutex is released before
  `msgq_wait(p, MSGQ_STAT_ALIVE)`; the receiver thread exists and has not run. -/
  | opened (msgq : msgq_)
  /-- Returned `NULL` with `errno`, after the releasing calls listed. -/
  | failed (errno : Nat) (done : List Cleanup)
  /-- Call of `abort()` from `UNLOCK`, after the releasing calls listed. -/
  | aborted (done : List Cleanup)
deriving DecidableEq, Repr

/-- Label `err_free_livemutex` of `msgq_open`. -/
def msgq_open_err_free_livemutex (saved_errno : Nat) (done : List Cleanup) : OpenResult :=
  .failed saved_errno (done ++ [.free_pkbuf, .free_msgq])

/-- Label `err_cond_recv` of `msgq_open`.  The mutex is of type
`PTHREAD_MUTEX_ERRORCHECK`: unlocking it while it is not locked fails, and
`UNLOCK` then calls `abort()`. -/
def msgq_open_err_cond_recv (locked : Bool) (fd : Int) (saved_errno : Nat)
    (done : List Cleanup) : OpenResult :=
  if ¬ locked then .aborted done
  else
    let done := done ++ [.unlock]
    let done := if fd ≥ 0 then done ++ [.close_fd] else done
    msgq_open_err_free_livemutex saved_errno (done ++ [.mutex_destroy])

/-- Label `err_cond` of `msgq_open`. -/
def msgq_open_err_cond (locked : Bool) (fd : Int) (saved_errno : Nat)
    (done : List Cleanup) : OpenResult :=
  msgq_open_err_cond_recv locked fd saved_errno (done ++ [.cond_destroy_recv])

/-- Label `err` of `msgq_open`. -/
def msgq_open_err (locked : Bool) (fd : Int) (saved_errno : Nat)
    (done : List Cleanup) : OpenResult :=
  msgq_open_err_cond locked fd saved_errno (done ++ [.cond_destroy_stat])

/-- `msgq_open` up to the release of the mutex. -/
def msgq_open (env : OpenEnv) : OpenResult :=
  if ¬ env.malloc_msgq then .failed env.errno []
  else if ¬ env.malloc_pkbuf then .failed env.errno [.free_msgq]
  else
    -- `p->fd = -1`, the mutex is not locked yet
    if env.mutex_init ≠ 0 then msgq_open_err_free_livemutex env.mutex_init []
    else if env.recv_cond_init ≠ 0 then
      msgq_open_err_cond_recv false (-1) env.recv_cond_init []
    else if env.stat_cond_init ≠ 0 then
      msgq_open_err_cond false (-1) env.stat_cond_init []
    else
      -- `MSGQ_LOCK(p); p->receiver_status = MSGQ_STAT_INIT;`
      match env.get_listener with
      | none => msgq_open_err true (-1) env.errno []
      | some (fd, address) =>
        if ¬ env.start_receiver then msgq_open_err true fd env.errno []
        else
          .opened { fd := fd, address := address, broadcast := 0, recvq := [], recvs := 0,
                    receiver_status := MSGQ_STAT_INIT }

/-- One pass through the body of the `while` loop of `msgq_close` that frees
the packets left in the queue; `none` when the loop ends. -/
def msgq_close_drain_body (P : Platform) (msgq : msgq_) : Option msgq_ :=
  match edque_pop_front msgq.recvq with
  | (none, _) => none
  | (some _, q) => some { msgq with recvq := q, recvs := recvs_dec P msgq.recvs }

/-! ## The endpoint as a transition system -/

/-- Where the receiver thread stands. -/
inductive Pc where
  /-- Created, before its first statement. -/
  | entry
  /-- Inside `while (1)`, with `receiver_status` set to `MSGQ_STAT_ALIVE`. -/
  | loop
  /-- After the loop, before `receiver_status` is set to `MSGQ_STAT_DEAD`. -/
  | leaving
  /-- Returned. -/
  | exited
deriving DecidableEq, Repr

/-- The endpoint and its receiver thread. -/
structure Sys where
  msgq : msgq_
  pc : Pc
deriving DecidableEq, Repr

/-- The atomic steps on an open endpoint.  Each is a section of code run with
the mutex held, or between two such sections of the receiver. -/
inductive Action where
  /-- The receiver thread runs up to its next release of the mutex; inside the
  loop, `r`, `m_node` and `m_packet` are the outcomes of `recvfrom` and of the
  two `malloc` calls. -/
  | receiver (r : RecvFrom) (m_node m_packet : Malloc)
  /-- A consumer runs the locked section of `msgq_recv`, or the pop at the head
  of the loop of `msgq_recv_timedwait`, which writes the same members. -/
  | consumer_recv
  /-- One pass of the draining loop of `msgq_close`, which runs after
  `pthread_join`. -/
  | close_drain

/-- One step of the endpoint. -/
def Sys.step (P : Platform) (s : Sys) : Action → Except Fault Sys
  | .receiver r m_node m_packet =>
    match s.pc with
    | .entry => .ok { msgq := { s.msgq with receiver_status := MSGQ_STAT_ALIVE }, pc := .loop }
    | .loop =>
      match msgq_receiver_body P s.msgq r m_node m_packet with
      | .error f => .error f
      | .ok (b, msgq) => .ok { msgq := msgq, pc := if b.leaves_loop then .leaving else .loop }
    | .leaving => .ok { msgq := { s.msgq with receiver_status := MSGQ_STAT_DEAD }, pc := .exited }
    | .exited => .ok s
  | .consumer_recv => .ok { s with msgq := (msgq_recv P s.msgq).2 }
  | .close_drain =>
    if s.pc = .exited then
      match msgq_close_drain_body P s.msgq with
      | none => .ok s
      | some msgq => .ok { s with msgq := msgq }
    else .ok s

/-- The states that a sequence of steps visits, up to a `Fault`. -/
def Sys.trace (P : Platform) : Sys → List Action → List Sys
  | s, [] => [s]
  | s, a :: as =>
    match s.step P a with
    | .error _ => [s]
    | .ok s1 => s :: Sys.trace P s1 as

/-! ## Sequences of calls -/

/-- A result of `recvfrom` that fits the receive buffer: at most
`MSGQ_MSG_MAX` bytes were received, the data area is what follows the header
in the buffer, and `size` is a value of its type. -/
def RecvFrom.wf (P : Platform) (r : RecvFrom) : Prop :=
  r.len ≤ P.MSGQ_MSG_MAX ∧ P.hdr + r.pkbuf.data.length ≤ P.MSGQ_MSG_MAX ∧
  r.pkbuf.size < 2 ^ P.sizeBits

instance (P : Platform) (r : RecvFrom) : Decidable (r.wf P) := by
  unfold RecvFrom.wf; infer_instance

/-- The inputs of one pass of the receiver loop. -/
structure LoopInput where
  r : RecvFrom
  m_node : Malloc
  m_packet : Malloc

/-- Consecutive passes of the receiver loop each of which appends a node:
the endpoint afterwards, `none` when some pass does not append. -/
def receiver_enqueue_all (P : Platform) : msgq_ → List LoopInput → Option msgq_
  | msgq, [] => some msgq
  | msgq, i :: is =>
    match msgq_receiver_body P msgq i.r i.m_node i.m_packet with
    | .ok (.enqueued _, msgq1) => receiver_enqueue_all P msgq1 is
    | _ => none

/-- The receive calls of the interface. -/
inductive RecvCall where
  | recv
  | recv_wait (errno : Nat) (wakes : List Wake)
  | recv_timedwait (abstime : timespec) (errno : Nat) (wakes : List Wake)

/-- The pointer returned by a receive call (`none` also when the call does
not return) and the endpoint afterwards. -/
def RecvCall.run (P : Platform) (msgq : msgq_) : RecvCall → Option msgq_packet × msgq_
  | .recv => msgq_recv P msgq
  | .recv_wait errno wakes =>
    ((msgq_recv_wait P msgq errno wakes).ret, (msgq_recv_wait P msgq errno wakes).msgq)
  | .recv_timedwait abstime errno wakes =>
    ((msgq_recv_timedwait P msgq (some abstime) errno wakes).ret,
     (msgq_recv_timedwait P msgq (some abstime) errno wakes).msgq)

/-- Consecutive receive calls: the pointers returned, in order, and the
endpoint afterwards. -/
def recv_calls (P : Platform) : msgq_ → List RecvCall → List (Option msgq_packet) × msgq_
  | msgq, [] => ([], msgq)
  | msgq, c :: cs =>
    ((c.run P msgq).1 :: (recv_calls P (c.run P msgq).2 cs).1,
     (recv_calls P (c.run P msgq).2 cs).2)

/-- What one step may do to the life cycle and the queue: the state of the
receiver stays or advances by one, and from `MSGQ_STAT_DEAD` on it stays and
the queue only loses its oldest node, if anything. -/
def Sys.lifecycle_step (s t : Sys) : Prop :=
  (t.msgq.receiver_status = s.msgq.receiver_status ∨
    t.msgq.receiver_status = s.msgq.receiver_status + 1) ∧
  (s.msgq.receiver_status = MSGQ_STAT_DEAD →
    t.msgq.receiver_status = MSGQ_STAT_DEAD ∧
    (t.msgq.recvq = s.msgq.recvq ∨ t.msgq.recvq = s.msgq.recvq.tail))

/-- Where the receiver thread stands fixes `receiver_status`. -/
def Sys.inv (s : Sys) : Prop :=
  match s.pc with
  | .entry => s.msgq.receiver_status = MSGQ_STAT_INIT
  | .loop => s.msgq.receiver_status = MSGQ_STAT_ALIVE
  | .leaving => s.msgq.receiver_status = MSGQ_STAT_ALIVE
  | .exited => s.msgq.receiver_status = MSGQ_STAT_DEAD

instance (s : Sys) : Decidable s.inv := by
  unfold Sys.inv; cases s.pc <;> infer_instance

/-! ## Notions used by the statements on counts, deadlines and indices -/

/-- The index `packet->size - 1` that `msgq_copy_packet` reads for its test of
the last payload byte, computed in the unsigned type of `size`. -/
def msgq_copy_packet_index (P : Platform) (packet : msgq_packet) : Nat :=
  (packet.size + 2 ^ P.sizeBits - 1) % 2 ^ P.sizeBits

/-- A normalised `struct timespec`: `0 <= tv_nsec < 10^9`. -/
def timespec.normalised (t : timespec) : Prop :=
  0 ≤ t.tv_nsec ∧ t.tv_nsec < 1000000000

instance (t : timespec) : Decidable t.normalised := by
  unfold timespec.normalised; infer_instance

/-- The seconds that `timespec_subtract` computes for normalised `x` and `y`
are values of `time_t`: `y.tv_sec + 1`, which the carry stores in `*y`, and the
differences `x.tv_sec - y.tv_sec` and `x.tv_sec - y.tv_sec - 1`. -/
def timespec_subtract_fits (P : Platform) (x y : timespec) : Prop :=
  -(2 : Int) ^ (P.timeBits - 1) ≤ y.tv_sec + 1 ∧ y.tv_sec + 1 < 2 ^ (P.timeBits - 1) ∧
  -(2 : Int) ^ (P.timeBits - 1) ≤ x.tv_sec - y.tv_sec - 1 ∧
  x.tv_sec - y.tv_sec < 2 ^ (P.timeBits - 1)

instance (P : Platform) (x y : timespec) : Decidable (timespec_subtract_fits P x y) := by
  unfold timespec_subtract_fits; infer_instance

/-- The instant of a `struct timespec` in nanoseconds. -/
def timespec.nanos (t : timespec) : Int :=
  t.tv_sec * 1000000000 + t.tv_nsec

/-- The pending count agrees with the queue: `recvs`, a `size_t`, is the
number of nodes in `recvq`. -/
def msgq_.counted (P : Platform) (msgq : msgq_) : Prop :=
  msgq.recvs = msgq.recvq.length % 2 ^ P.wordBits

instance (P : Platform) (msgq : msgq_) : Decidable (msgq.counted P) := by
  unfold msgq_.counted; infer_instance

/-- The other threads left the count in agreement with the queue. -/
def Wake.counted (P : Platform) (w : Wake) : Prop :=
  w.recvs = w.recvq.length % 2 ^ P.wordBits

instance (P : Platform) (w : Wake) : Decidable (w.counted P) := by
  unfold Wake.counted; infer_instance

/-! ## Sample values -/

namespace Sample

/-- An endpoint on descriptor 3 bound to `/a`, receiver alive, queue empty. -/
def endpoint : msgq_ :=
  { fd := 3, address := [47, 97], broadcast := 0, recvq := [], recvs := 0,
    receiver_status := MSGQ_STAT_ALIVE }

/-- A datagram of 10 bytes from `/b`: payload `hi`, two stale bytes behind it
in the buffer. -/
def recv_hi : RecvFrom :=
  { len := 10, errno := 0, sun_path := [47, 98],
    pkbuf := { size := 2, container := none, data := [104, 105, 9, 9] } }

/-- A datagram of 11 bytes from `/c` that declares 9 payload bytes and carries
3, `ok` and a NUL. -/
def recv_ok : RecvFrom :=
  { len := 11, errno := 0, sun_path := [47, 99],
    pkbuf := { size := 9, container := none, data := [111, 107, 0, 9] } }

/-- A successful `malloc` whose block holds the byte 7 everywhere. -/
def heap : Malloc := some (fun _ => 7)

/-- The `sender` array of a node for the address `/` followed by `c`. -/
def sender_array (c : Byte) : List Byte := strncpy [47, c] 107 ++ [7]

/-- The node made from `recv_hi`. -/
def node_hi : msgq_node :=
  { sender := sender_array 98,
    packet := { size := 2, container := some (sender_array 98), data := [104, 105, 0] } }

/-- The node made from `recv_ok`. -/
def node_ok : msgq_node :=
  { sender := sender_array 99,
    packet := { size := 3, container := some (sender_array 99), data := [111, 107, 0] } }

/-- The endpoint after both datagrams were appended. -/
def filled : msgq_ := { endpoint with recvq := [node_hi, node_ok], recvs := 2 }

/-- The endpoint `filled` after its receiver has set `MSGQ_STAT_DEAD`. -/
def dead_filled : msgq_ := { filled with receiver_status := MSGQ_STAT_DEAD }

/-- A return of the timed wait with `ETIMEDOUT` at time 5 s that found the
endpoint as `endpoint` has it. -/
def wake_timeout : Wake :=
  { ret := ETIMEDOUT, recvq := [], recvs := 0, receiver_status := MSGQ_STAT_ALIVE,
    now := { tv_sec := 5, tv_nsec := 0 } }

/-- Outcomes with which `msgq_open` succeeds on descriptor 3 at `/a`. -/
def open_env : OpenEnv :=
  { malloc_msgq := true, malloc_pkbuf := true, errno := 0, mutex_init := 0,
    recv_cond_init := 0, stat_cond_init := 0, get_listener := some (3, [47, 97]),
    start_receiver := true }

/-- The endpoint that `msgq_open` builds from `open_env`. -/
def opened : msgq_ := { endpoint with receiver_status := MSGQ_STAT_INIT }

/-- A run of the endpoint: the receiver starts, appends `recv_hi`, a consumer
pops it, the receiver appends `recv_ok`, gets the control message of
`msgq_close`, sets `MSGQ_STAT_DEAD`, is scheduled once more, and `msgq_close`
drains the queue. -/
def run : List Action :=
  [.receiver recv_hi heap heap, .receiver recv_hi heap heap, .consumer_recv,
   .receiver recv_ok heap heap,
   .receiver { len := 17, errno := 0, sun_path := [47, 97],
               pkbuf := { size := 9, container := none,
                          data := [115, 104, 117, 116, 100, 111, 119, 110, 0] } } none none,
   .receiver recv_hi heap heap, .receiver recv_hi heap heap, .close_drain, .close_drain]

/-- The 4 bytes `ping`. -/
def ping : List Byte := [112, 105, 110, 103]

/-- Junk of a block of `malloc`: the byte 7 everywhere. -/
def junk : Nat → Byte := fun _ => 7

/-- The 9 bytes `shutdown!`. -/
def shutdown_bang : List Byte := shutdown8 ++ [33]

/-- The 9 bytes that `msgq_close` sends through `msgq_send_string`: the
characters of `shutdown` and the terminator. -/
def shutdown_nul : List Byte := shutdown8 ++ [0]

/-- The frame that `msgq_send` builds around `payload` on ILP32, as handed to
`sendto` for the address `/a`. -/
def frame (payload : List Byte) : Datagram :=
  { dest := strncpy [47, 97] 107,
    packet := { size := payload.length, container := none, data := payload },
    len := 8 + payload.length }

/-- Outcomes of `msgq_open` in which `pthread_cond_init(&p->recv_cond)` fails
with `ENOMEM`. -/
def open_env_recv_cond : OpenEnv := { open_env with recv_cond_init := 12 }

/-- Outcomes of `msgq_open` in which `pthread_cond_init(&p->stat_cond)` fails
with `ENOMEM`. -/
def open_env_stat_cond : OpenEnv := { open_env with stat_cond_init := 12 }

/-- A successful return of the wait at time 5 s, after the receiver appended
`node_hi` to the queue of `endpoint`. -/
def wake_node : Wake :=
  { ret := 0, recvq := [node_hi], recvs := 1, receiver_status := MSGQ_STAT_ALIVE,
    now := { tv_sec := 5, tv_nsec := 0 } }

/-- A successful return of the wait at time 5 s that found the queue of
`endpoint` still empty. -/
def wake_spurious : Wake :=
  { ret := 0, recvq := [], recvs := 0, receiver_status := MSGQ_STAT_ALIVE,
    now := { tv_sec := 5, tv_nsec := 0 } }

end Sample

/-! # Theorems -/

/-! ## Machine arithmetic -/

theorem two_pow_pred_double (w : Nat) (hw : 0 < w) : (2 : Int) ^ w = 2 * 2 ^ (w - 1) := by
  obtain ⟨k, rfl⟩ : ∃ k, w = k + 1 := ⟨w - 1, by omega⟩
  simp [pow_succ, mul_comm]

theorem toSigned_of_range (w : Nat) (x : Int) (hw : 0 < w)
    (h1 : -(2 : Int) ^ (w - 1) ≤ x) (h2 : x < 2 ^ (w - 1)) : toSigned w x = x := by
  unfold toSigned
  have h := two_pow_pred_double w hw
  rw [Int.emod_eq_of_lt (by omega) (by omega)]
  omega

theorem toUnsigned_of_range (w : Nat) (x : Int) (h1 : 0 ≤ x) (h2 : x < 2 ^ w) :
    toUnsigned w x = x.toNat := by
  unfold toUnsigned
  rw [Int.emod_eq_of_lt h1 h2]

theorem pow_pred_lt_pow (w : Nat) (hw : 0 < w) : (2 : Nat) ^ (w - 1) < 2 ^ w :=
  Nat.pow_lt_pow_right (by decide) (by omega)

/-- For a received length, `estimated` is `len - hdr`. -/
theorem estimated_eq (P : Platform) (hP : P.wf) (len : Int) (h0 : 0 ≤ len)
    (hmax : len ≤ P.MSGQ_MSG_MAX) :
    toSigned P.wordBits (len - toSigned P.wordBits P.hdr) = len - P.hdr := by
  obtain ⟨hs, hsw, hh, _, hm, _⟩ := hP
  have hw : 0 < P.wordBits := by omega
  have hm' : (P.MSGQ_MSG_MAX : Int) < 2 ^ (P.wordBits - 1) := by exact_mod_cast hm
  have hh' : (P.hdr : Int) ≤ P.MSGQ_MSG_MAX := by exact_mod_cast hh
  have hpos : (0 : Int) < 2 ^ (P.wordBits - 1) := by positivity
  rw [toSigned_of_range P.wordBits P.hdr hw (by omega) (by omega)]
  exact toSigned_of_range _ _ hw (by omega) (by omega)

/-! ## Validation -/

theorem validate_packet_status (P : Platform) (hP : P.wf) (packet : msgq_packet) (len : Int)
    (h0 : 0 ≤ len) (hmax : len ≤ P.MSGQ_MSG_MAX) :
    (validate_packet P packet len).1 = if len < P.hdr then -1 else 0 := by
  unfold validate_packet
  simp only [estimated_eq P hP len h0 hmax]
  by_cases h : len < P.hdr
  · have h' : len - (P.hdr : Int) < 0 := by omega
    simp [h, h']
  · have h' : ¬ len - (P.hdr : Int) < 0 := by omega
    simp [h, h']

/-- C1.  For every received length `len` (what `recvfrom` returns for a buffer
of `MSGQ_MSG_MAX` bytes), `validate_packet` returns `-1` if and only if `len`
is smaller than the header size; and in every endpoint state the body of the
receiver loop, given a rejected datagram, takes the `continue` of the invalid
packet and leaves the endpoint, hence `recvq` and `recvs`, as it was. -/
theorem short_datagram_rejected (P : Platform) (hP : P.wf) (msgq : msgq_) (r : RecvFrom)
    (m_node m_packet : Malloc) (h0 : 0 ≤ r.len) (hmax : r.len ≤ P.MSGQ_MSG_MAX) :
    ((validate_packet P r.pkbuf r.len).1 = -1 ↔ r.len < P.hdr) ∧
    ((validate_packet P r.pkbuf r.len).1 = -1 →
      msgq_receiver_body P msgq r m_node m_packet = .ok (.invalid, msgq) ∧
      ∀ b msgq1, msgq_receiver_body P msgq r m_node m_packet = .ok (b, msgq1) →
        b.leaves_loop = false ∧ msgq1.recvq = msgq.recvq ∧ msgq1.recvs = msgq.recvs) := by
  have hv := validate_packet_status P hP r.pkbuf r.len h0 hmax
  constructor
  · rw [hv]; by_cases h : r.len < P.hdr <;> simp [h]
  · intro hrej
    have hbody : msgq_receiver_body P msgq r m_node m_packet = .ok (.invalid, msgq) := by
      unfold msgq_receiver_body
      have : ¬ r.len < 0 := by omega
      simp [this, hrej]
    refine ⟨hbody, ?_⟩
    intro b msgq1 h
    rw [hbody] at h
    injection h with h
    injection h with hb hm
    subst hb; subst hm
    exact ⟨rfl, rfl, rfl⟩

theorem short_datagram_rejected_witness :
    ((validate_packet ilp32 ⟨5, none, [1, 2, 3]⟩ 7).1 = -1 ↔ (7 : Int) < ilp32.hdr) ∧
    ((validate_packet ilp32 ⟨5, none, [1, 2, 3]⟩ 7).1 = -1 →
      msgq_receiver_body ilp32 ⟨3, [47, 97], 0, [], 0, 1⟩ ⟨7, 0, [47, 98], ⟨5, none, [1, 2, 3]⟩⟩
          none none = .ok (.invalid, ⟨3, [47, 97], 0, [], 0, 1⟩) ∧
      ∀ b msgq1, msgq_receiver_body ilp32 ⟨3, [47, 97], 0, [], 0, 1⟩
          ⟨7, 0, [47, 98], ⟨5, none, [1, 2, 3]⟩⟩ none none = .ok (b, msgq1) →
        b.leaves_loop = false ∧ msgq1.recvq = [] ∧ msgq1.recvs = 0) :=
  short_datagram_rejected ilp32 (by decide) ⟨3, [47, 97], 0, [], 0, 1⟩
    ⟨7, 0, [47, 98], ⟨5, none, [1, 2, 3]⟩⟩ none none (by decide) (by decide)

/-- The clamp of `validate_packet` on a declared size that is a positive
`ssize_t`: the size becomes the smaller of the declared size and the bytes
received after the header. -/
theorem validate_packet_size_of_small (P : Platform) (hP : P.wf) (packet : msgq_packet)
    (len : Int) (h0 : (P.hdr : Int) ≤ len) (hmax : len ≤ P.MSGQ_MSG_MAX)
    (hsz : packet.size < 2 ^ (P.wordBits - 1)) :
    validate_packet P packet len =
      (0, { packet with size := min packet.size (len - P.hdr).toNat, container := none }) := by
  have hP' := hP
  obtain ⟨hs, hsw, hh, hms, hm, _⟩ := hP
  have hw : 0 < P.wordBits := by omega
  have hsz' : (packet.size : Int) < 2 ^ (P.wordBits - 1) := by exact_mod_cast hsz
  have hpos : (0 : Int) < 2 ^ (P.wordBits - 1) := by positivity
  have hms' : (P.MSGQ_MSG_MAX : Int) < 2 ^ P.sizeBits := by exact_mod_cast hms
  unfold validate_packet
  simp only [estimated_eq P hP' len (by omega) hmax]
  rw [toSigned_of_range P.wordBits packet.size hw (by omega) hsz']
  have hneg : ¬ len - (P.hdr : Int) < 0 := by omega
  simp only [hneg, if_false]
  by_cases hlt : len - (P.hdr : Int) < packet.size
  · simp only [hlt, if_true]
    rw [toUnsigned_of_range P.sizeBits _ (by omega) (by omega)]
    have : min packet.size (len - (P.hdr : Int)).toNat = (len - (P.hdr : Int)).toNat := by
      apply min_eq_right; omega
    rw [this]
  · simp only [hlt, if_false]
    have : min packet.size (len - (P.hdr : Int)).toNat = packet.size := by
      apply min_eq_left; omega
    rw [this]

/-- The gap in the clamp: when the `size` member is as wide as `ssize_t`, a
declared size in the upper half of the unsigned range is a negative number in
the comparison, and `validate_packet` accepts the packet with the declared
size untouched, however few bytes arrived. -/
theorem validate_packet_size_of_large (P : Platform) (hP : P.wf) (packet : msgq_packet)
    (len : Int) (h0 : (P.hdr : Int) ≤ len) (hmax : len ≤ P.MSGQ_MSG_MAX)
    (hlo : 2 ^ (P.wordBits - 1) ≤ packet.size) (hhi : packet.size < 2 ^ P.wordBits) :
    validate_packet P packet len = (0, { packet with container := none }) := by
  have hP' := hP
  obtain ⟨hs, hsw, hh, hms, hm, _⟩ := hP
  have hw : 0 < P.wordBits := by omega
  have hlo' : (2 : Int) ^ (P.wordBits - 1) ≤ packet.size := by exact_mod_cast hlo
  have hhi' : (packet.size : Int) < 2 ^ P.wordBits := by exact_mod_cast hhi
  have h2 := two_pow_pred_double P.wordBits hw
  have hneg : toSigned P.wordBits packet.size = packet.size - 2 ^ P.wordBits := by
    unfold toSigned
    have : ((packet.size : Int) + 2 ^ (P.wordBits - 1)) % 2 ^ P.wordBits
        = packet.size + 2 ^ (P.wordBits - 1) - 2 ^ P.wordBits := by
      rw [Int.emod_eq_sub_self_emod, Int.emod_eq_of_lt (by omega) (by omega)]
    rw [this]; omega
  unfold validate_packet
  simp only [estimated_eq P hP' len (by omega) hmax, hneg]
  have hn1 : ¬ len - (P.hdr : Int) < 0 := by omega
  have hn2 : ¬ len - (P.hdr : Int) < packet.size - 2 ^ P.wordBits := by omega
  simp only [hn1, hn2, if_false]

/-- C2 (evaluation at the failing input).  A declared size at the top of the
unsigned range is read as a negative `ssize_t` by the comparison in
`validate_packet` and is not clamped: with 4 payload bytes received, the size
`0xFFFFFFFF` (ILP32) or `2^64 - 1` (LP64 with `size_t size`) is accepted and
left as it is, while the largest positive `ssize_t` value is clamped to 4; the
copy made from the unclamped packet then reads outside the buffer. -/
theorem validate_packet_oversize_unclamped :
    validate_packet ilp32 ⟨4294967295, none, [1, 2, 3, 4]⟩ 12
      = (0, ⟨4294967295, none, [1, 2, 3, 4]⟩) ∧
    validate_packet lp64 ⟨18446744073709551615, none, [1, 2, 3, 4]⟩ 20
      = (0, ⟨18446744073709551615, none, [1, 2, 3, 4]⟩) ∧
    validate_packet ilp32 ⟨2147483647, none, [1, 2, 3, 4]⟩ 12
      = (0, ⟨4, none, [1, 2, 3, 4]⟩) ∧
    min 4294967295 ((12 : Int) - ilp32.hdr).toNat = 4 ∧
    msgq_copy_packet ilp32 (some (fun _ => 0)) ⟨4294967295, none, [1, 2, 3, 4]⟩
      = .error .out_of_bounds := by
  refine ⟨by decide, by decide, by decide, by decide, by decide⟩

/-! ## Duplication -/

theorem block_drop_last (f : Nat → Byte) (n : Nat) :
    (Malloc.block f (n + 1)).drop n = [f n] := by
  unfold Malloc.block
  rw [List.range_succ, List.map_append]
  have hl : ((List.range n).map f).length = n := by simp
  rw [List.drop_append_of_le_length (by omega)]
  rw [List.drop_of_length_le (by omega)]
  simp

theorem block_drop_all (f : Nat → Byte) (n : Nat) : (Malloc.block f n).drop n = [] := by
  unfold Malloc.block
  apply List.drop_of_length_le
  simp

theorem last_index (sb size : Nat) (h1 : 1 ≤ size) (h2 : size < 2 ^ sb) :
    (size + 2 ^ sb - 1) % 2 ^ sb = size - 1 := by
  have : size + 2 ^ sb - 1 = (size - 1) + 2 ^ sb := by omega
  rw [this, Nat.add_mod_right, Nat.mod_eq_of_lt (by omega)]

/-- The duplicate that `msgq_copy_packet` returns for a packet with at least
one payload byte when the allocation succeeds. -/
theorem msgq_copy_packet_eq (P : Platform) (packet : msgq_packet) (junk : Nat → Byte)
    (hres : packet.resident P) (h1 : 1 ≤ packet.size) :
    msgq_copy_packet P (some junk) packet = .ok (some
      { size := packet.size, container := packet.container,
        data := packet.payload ++
          (if packet.data.get? (packet.size - 1) = some 0 then [] else [0]) }) := by
  obtain ⟨hsb, hlen, hw⟩ := hres
  have hlast := last_index P.sizeBits packet.size h1 hsb
  have hsize : (P.hdr + packet.size) % 2 ^ P.wordBits = P.hdr + packet.size :=
    Nat.mod_eq_of_lt (by omega)
  have hnew : (P.hdr + packet.size + 1) % 2 ^ P.wordBits = P.hdr + packet.size + 1 :=
    Nat.mod_eq_of_lt (by omega)
  have hget : ∃ c, packet.data.get? (packet.size - 1) = some c := by
    have : packet.size - 1 < packet.data.length := by omega
    exact ⟨packet.data.get ⟨_, this⟩, List.get?_eq_get this⟩
  obtain ⟨c, hc⟩ := hget
  have htl : (packet.data.take packet.size).length = packet.size := by
    rw [List.length_take]; omega
  unfold msgq_copy_packet
  simp only [hlast, hsize, hc, hnew]
  by_cases hz : c = 0
  · subst hz
    have h3 : ¬ (P.hdr + packet.size < P.hdr ∨
        packet.data.length < P.hdr + packet.size - P.hdr ∨
        P.hdr + packet.size < P.hdr + packet.size) := by omega
    simp only [ne_eq, not_true_eq_false, if_false, h3, gt_iff_lt, lt_self_iff_false,
      Nat.add_sub_cancel_left, block_drop_all, List.append_nil, if_true]
    rw [if_neg (by simp; omega)]
    rfl
  · have h3 : ¬ (P.hdr + packet.size < P.hdr ∨
        packet.data.length < P.hdr + packet.size - P.hdr ∨
        P.hdr + packet.size + 1 < P.hdr + packet.size) := by omega
    have h4 : P.hdr + packet.size + 1 > P.hdr + packet.size := by omega
    have h5 : P.hdr + packet.size + 1 - P.hdr = packet.size + 1 := by omega
    have h6 : (some c = some (0 : Byte)) = False := by simp [hz]
    simp only [ne_eq, hz, not_false_eq_true, if_true, h3, if_false, h4, h5,
      Nat.add_sub_cancel_left, block_drop_last, h6]
    have h7 : packet.size < (List.take packet.size packet.data ++ [junk (P.hdr + packet.size)]).length := by
      rw [List.length_append, htl]; simp
    simp only [h7, if_true]
    have h8 : (List.take packet.size packet.data ++ [junk (P.hdr + packet.size)]).set packet.size 0
        = List.take packet.size packet.data ++ [0] := by
      rw [List.set_append_right _ _ (by omega), htl]
      simp
    rw [h8, if_neg (by omega)]
    rfl

/-- A packet in the receive buffer that `msgq_copy_packet` duplicates has at
least one payload byte and lies in the buffer. -/
theorem msgq_copy_packet_ok_inv (P : Platform) (hP : P.wf) (m : Malloc) (packet q : msgq_packet)
    (hsb : packet.size < 2 ^ P.sizeBits)
    (hbuf : P.hdr + packet.data.length ≤ P.MSGQ_MSG_MAX)
    (h : msgq_copy_packet P m packet = .ok (some q)) :
    1 ≤ packet.size ∧ packet.resident P ∧ ∃ junk, m = some junk := by
  obtain ⟨hs, hsw, hh, hms, hm, _⟩ := hP
  have hw : 0 < P.wordBits := by omega
  have hpw := pow_pred_lt_pow P.wordBits hw
  unfold msgq_copy_packet at h
  simp only at h
  split at h
  · cases h
  · rename_i c hc
    have hlt : (packet.size + 2 ^ P.sizeBits - 1) % 2 ^ P.sizeBits < packet.data.length := by
      by_contra hcon
      rw [List.get?_eq_none.mpr (by omega)] at hc
      cases hc
    have h1 : 1 ≤ packet.size := by
      by_contra h0
      have hz : packet.size = 0 := by omega
      rw [hz, Nat.zero_add, Nat.mod_eq_of_lt (by omega)] at hlt
      omega
    rw [last_index P.sizeBits packet.size h1 hsb] at hlt
    refine ⟨h1, ⟨hsb, by omega, by omega⟩, ?_⟩
    cases m with
    | none => simp at h
    | some junk => exact ⟨junk, rfl⟩

/-! ## The receiver loop -/

theorem validate_packet_data (P : Platform) (packet : msgq_packet) (len : Int) :
    (validate_packet P packet len).2.data = packet.data := by
  unfold validate_packet
  simp only
  split
  · rfl
  · split <;> rfl

theorem toUnsigned_lt (w : Nat) (x : Int) : toUnsigned w x < 2 ^ w := by
  unfold toUnsigned
  have hpos : (0 : Int) < 2 ^ w := by positivity
  have h1 := Int.emod_lt_of_pos x hpos
  have h2 := Int.emod_nonneg x (ne_of_gt hpos)
  have : ((x % 2 ^ w).toNat : Int) < ((2 ^ w : Nat) : Int) := by
    rw [Int.toNat_of_nonneg h2]; exact_mod_cast h1
  exact_mod_cast this

theorem validate_packet_size_lt (P : Platform) (packet : msgq_packet) (len : Int)
    (h : packet.size < 2 ^ P.sizeBits) :
    (validate_packet P packet len).2.size < 2 ^ P.sizeBits := by
  unfold validate_packet
  simp only
  split
  · exact h
  · split
    · exact toUnsigned_lt _ _
    · exact h

theorem payload_length (p : msgq_packet) (h : p.size ≤ p.data.length) :
    p.payload.length = p.size := by
  unfold msgq_packet.payload
  rw [List.length_take]; omega

/-- What the body of the receiver loop has done when it leaves through the
exit that appends: the node created from the validated packet is at the back
of the queue, and its packet carries the size and the payload of the validated
packet, with the sender array as container. -/
theorem receiver_body_enqueued (P : Platform) (hP : P.wf) (msgq msgq1 : msgq_) (r : RecvFrom)
    (m_node m_packet : Malloc) (b : Bool) (hwf : r.wf P)
    (h : msgq_receiver_body P msgq r m_node m_packet = .ok (.enqueued b, msgq1)) :
    ∃ np, msgq1 = { msgq with recvq := msgq.recvq ++ [np],
                              recvs := recvs_inc P msgq.recvs } ∧
      np.packet.size = (validate_packet P r.pkbuf r.len).2.size ∧
      np.packet.payload = (validate_packet P r.pkbuf r.len).2.payload ∧
      1 ≤ np.packet.size ∧ np.packet.size ≤ np.packet.data.length ∧
      np.packet.container = some np.sender ∧
      (∃ junk, np.sender = strncpy r.sun_path (P.UNIX_PATH_MAX - 1) ++
        (Malloc.block junk P.UNIX_PATH_MAX).drop (P.UNIX_PATH_MAX - 1)) := by
  obtain ⟨_, hbuf, hsb⟩ := hwf
  have hsz := validate_packet_size_lt P r.pkbuf r.len hsb
  have hdat := validate_packet_data P r.pkbuf r.len
  generalize hv : validate_packet P r.pkbuf r.len = v at hsz hdat ⊢
  unfold msgq_receiver_body at h
  simp only [hv] at h
  split at h
  · split at h <;> cases h
  · split at h
    · cases h
    · split at h
      · cases h
      · cases h
      · unfold msgq_node_create at h
        cases m_node with
        | none => cases h
        | some junk =>
          simp only at h
          cases hcp : msgq_copy_packet P m_packet v.2 with
          | error f => rw [hcp] at h; cases h
          | ok o =>
            cases o with
            | none => rw [hcp] at h; cases h
            | some q =>
              rw [hcp] at h
              simp only at h
              injection h with h
              injection h with _ hm
              obtain ⟨h1, hres, j2, hj2⟩ :=
                msgq_copy_packet_ok_inv P hP m_packet v.2 q hsz (by rw [hdat]; exact hbuf) hcp
              subst hj2
              rw [msgq_copy_packet_eq P v.2 j2 hres h1] at hcp
              injection hcp with hcp
              injection hcp with hcp
              subst hcp
              have hpl := payload_length v.2 hres.2.1
              refine ⟨_, hm.symm, rfl, ?_, h1, ?_, rfl, junk, rfl⟩
              · show List.take v.2.size (v.2.payload ++ _) = v.2.payload
                rw [List.take_append_of_le_length (by omega), List.take_of_length_le (by omega)]
              · show v.2.size ≤ (v.2.payload ++ _).length
                rw [List.length_append]; omega

/-! ## Receive calls and FIFO order -/

theorem msgq_recv_cons (P : Platform) (msgq : msgq_) (np : msgq_node) (q : List msgq_node)
    (h : msgq.recvq = np :: q) :
    msgq_recv P msgq =
      (some np.packet, { msgq with recvq := q, recvs := recvs_dec P msgq.recvs }) := by
  unfold msgq_recv
  rw [h]
  rfl

theorem msgq_recv_nil (P : Platform) (msgq : msgq_) (h : msgq.recvq = []) :
    msgq_recv P msgq = (none, msgq) := by
  unfold msgq_recv
  rw [h]
  rfl

theorem msgq_recv_timedwait_loop_cons (P : Platform) (msgq : msgq_) (np : msgq_node)
    (q : List msgq_node) (abstime : Option timespec) (errno : Nat) (wakes : List Wake) (k : Nat)
    (h : msgq.recvq = np :: q) :
    msgq_recv_timedwait_loop P msgq abstime errno wakes k =
      { blocked := false, ret := some np.packet, errno := errno,
        msgq := { msgq with recvq := q, recvs := recvs_dec P msgq.recvs },
        abstime := abstime, waits := k } := by
  unfold msgq_recv_timedwait_loop
  rw [h]
  rfl

/-- On a queue that is not empty every receive call returns the packet of the
oldest node and unlinks that node. -/
theorem RecvCall.run_cons (P : Platform) (msgq : msgq_) (np : msgq_node) (q : List msgq_node)
    (c : RecvCall) (h : msgq.recvq = np :: q) :
    c.run P msgq = (some np.packet, { msgq with recvq := q, recvs := recvs_dec P msgq.recvs }) := by
  cases c with
  | recv => exact msgq_recv_cons P msgq np q h
  | recv_wait errno wakes =>
    simp only [RecvCall.run, msgq_recv_wait, msgq_recv_timedwait,
      msgq_recv_timedwait_loop_cons P msgq np q _ _ _ _ h]
  | recv_timedwait abstime errno wakes =>
    simp only [RecvCall.run, msgq_recv_timedwait,
      msgq_recv_timedwait_loop_cons P msgq np q _ _ _ _ h]

theorem recv_calls_queue (P : Platform) (calls : List RecvCall) :
    ∀ (msgq : msgq_) (nodes : List msgq_node), msgq.recvq = nodes →
      calls.length = nodes.length →
      (recv_calls P msgq calls).1 = nodes.map (fun np => some np.packet) ∧
      (recv_calls P msgq calls).2.recvq = [] := by
  induction calls with
  | nil =>
    intro msgq nodes hq hlen
    cases nodes with
    | nil => exact ⟨rfl, hq⟩
    | cons _ _ => simp at hlen
  | cons c cs ih =>
    intro msgq nodes hq hlen
    cases nodes with
    | nil => simp at hlen
    | cons np q =>
      have hrun := RecvCall.run_cons P msgq np q c hq
      have hlen' : cs.length = q.length := by simpa using hlen
      have := ih { msgq with recvq := q, recvs := recvs_dec P msgq.recvs } q rfl hlen'
      simp only [recv_calls, hrun, List.map_cons]
      exact ⟨by rw [this.1], this.2⟩

theorem receiver_enqueue_all_queue (P : Platform) (hP : P.wf) (ins : List LoopInput) :
    ∀ (msgq msgq1 : msgq_), (∀ i ∈ ins, i.r.wf P) →
      receiver_enqueue_all P msgq ins = some msgq1 →
      ∃ nodes, msgq1.recvq = msgq.recvq ++ nodes ∧
        nodes.map (fun np => np.packet.payload) =
          ins.map (fun i => (validate_packet P i.r.pkbuf i.r.len).2.payload) := by
  induction ins with
  | nil =>
    intro msgq msgq1 _ h
    simp only [receiver_enqueue_all, Option.some.injEq] at h
    subst h
    exact ⟨[], by simp, rfl⟩
  | cons i is ih =>
    intro msgq msgq1 hwf h
    simp only [receiver_enqueue_all] at h
    split at h
    · rename_i b msgq2 hbody
      obtain ⟨np, hm2, _, hpay, _⟩ :=
        receiver_body_enqueued P hP msgq msgq2 i.r i.m_node i.m_packet b
          (hwf i (List.mem_cons_self _ _)) hbody
      obtain ⟨nodes, hq, hmap⟩ :=
        ih msgq2 msgq1 (fun j hj => hwf j (List.mem_cons_of_mem _ hj)) h
      refine ⟨np :: nodes, ?_, ?_⟩
      · rw [hq, hm2]; simp
      · simp only [List.map_cons, hpay, hmap]
    · cases h

/-- C3.  FIFO order.  When the receiver loop, started on an empty queue,
appends a node in each of `N` consecutive passes, then `N` consecutive receive
calls, each of them `msgq_recv`, `msgq_recv_wait` or `msgq_recv_timedwait`,
all return a packet, and the payloads of these packets are the payloads of the
`N` validated datagrams in the order of their arrival; the queue is empty
afterwards. -/
theorem fifo_order (P : Platform) (hP : P.wf) (msgq msgq1 : msgq_) (ins : List LoopInput)
    (calls : List RecvCall) (hempty : msgq.recvq = []) (hwf : ∀ i ∈ ins, i.r.wf P)
    (henq : receiver_enqueue_all P msgq ins = some msgq1)
    (hlen : calls.length = ins.length) :
    (recv_calls P msgq1 calls).1.map (Option.map msgq_packet.payload) =
      ins.map (fun i => some (validate_packet P i.r.pkbuf i.r.len).2.payload) ∧
    (recv_calls P msgq1 calls).2.recvq = [] := by
  obtain ⟨nodes, hq, hmap⟩ := receiver_enqueue_all_queue P hP ins msgq msgq1 hwf henq
  rw [hempty, List.nil_append] at hq
  have hn : nodes.length = ins.length := by
    have := congrArg List.length hmap
    simpa using this
  obtain ⟨h1, h2⟩ := recv_calls_queue P calls msgq1 nodes hq (by omega)
  refine ⟨?_, h2⟩
  rw [h1, List.map_map]
  have : ins.map (fun i => some (validate_packet P i.r.pkbuf i.r.len).2.payload)
      = (ins.map (fun i => (validate_packet P i.r.pkbuf i.r.len).2.payload)).map some := by
    rw [List.map_map]; rfl
  rw [this, ← hmap, List.map_map]
  rfl

theorem fifo_order_witness :
    (recv_calls ilp32 Sample.filled [.recv, .recv_wait 0 []]).1.map
        (Option.map msgq_packet.payload) =
      [(⟨Sample.recv_hi, Sample.heap, Sample.heap⟩ : LoopInput),
       ⟨Sample.recv_ok, Sample.heap, Sample.heap⟩].map
        (fun i => some (validate_packet ilp32 i.r.pkbuf i.r.len).2.payload) ∧
    (recv_calls ilp32 Sample.filled [.recv, .recv_wait 0 []]).2.recvq = [] :=
  fifo_order ilp32 (by decide) Sample.endpoint Sample.filled
    [⟨Sample.recv_hi, Sample.heap, Sample.heap⟩, ⟨Sample.recv_ok, Sample.heap, Sample.heap⟩]
    [.recv, .recv_wait 0 []] rfl (by decide) (by decide) rfl

/-! ## Round trip -/

theorem strncmp_eq_append_false (a rest b : List Byte) (n : Nat)
    (h : strncmp_eq a b n = .ok false) : strncmp_eq (a ++ rest) b n = .ok false := by
  induction a generalizing b n with
  | nil =>
    cases n with
    | zero => simp [strncmp_eq] at h
    | succ n => simp [strncmp_eq] at h
  | cons x xs ih =>
    cases n with
    | zero => simp [strncmp_eq] at h
    | succ n =>
      cases b with
      | nil => simp [strncmp_eq] at h
      | cons y ys =>
        simp only [List.cons_append, strncmp_eq] at h ⊢
        by_cases hxy : x = y
        · subst hxy
          by_cases hx0 : x = 0
          · simp [hx0] at h
          · simp only [ne_eq, not_true_eq_false, if_false, hx0] at h ⊢
            exact ih ys n h
        · simp [hxy]

theorem cstr_sender_array (s : List Byte) (u : Nat) (junk : Nat → Byte)
    (hnul : (0 : Byte) ∉ s) (hlen : s.length + 1 < u) :
    cstr (strncpy s (u - 1) ++ (Malloc.block junk u).drop (u - 1)) = .ok s := by
  unfold strncpy cstr
  have ht : s.take (u - 1) = s := List.take_of_length_le (by omega)
  obtain ⟨k, hk⟩ : ∃ k, u - 1 - s.length = k + 1 := ⟨u - 1 - s.length - 1, by omega⟩
  rw [ht, hk, List.replicate_succ]
  have hmem : (0 : Byte) ∈ s ++ 0 :: List.replicate k 0 ++ (Malloc.block junk u).drop (u - 1) := by
    simp
  rw [if_pos hmem]
  congr 1
  rw [List.append_assoc, List.takeWhile_append_of_pos]
  · simp
  · intro c hc
    have : c ≠ 0 := fun h => hnul (h ▸ hc)
    simpa using this

/-- The frame that `msgq_send` hands to `sendto` for a payload that fits the
receive buffer. -/
theorem msgq_send_eq (P : Platform) (hP : P.wf) (junk : Nat → Byte)
    (receiver payload : List Byte) (sendto_ret : Int) (hsend : 0 ≤ sendto_ret)
    (hfit : P.hdr + payload.length ≤ P.MSGQ_MSG_MAX) :
    msgq_send P (some junk) receiver payload payload.length sendto_ret =
      .ok (0, some { dest := strncpy receiver (P.UNIX_PATH_MAX - 1),
                     packet := { size := payload.length, container := none, data := payload },
                     len := P.hdr + payload.length }) := by
  obtain ⟨hs, hsw, hh, hms, hm, _⟩ := hP
  have hw : 0 < P.wordBits := by omega
  have hpw := pow_pred_lt_pow P.wordBits hw
  have hn : (P.hdr + payload.length) % 2 ^ P.wordBits = P.hdr + payload.length :=
    Nat.mod_eq_of_lt (by omega)
  have hsz : payload.length % 2 ^ P.sizeBits = payload.length := Nat.mod_eq_of_lt (by omega)
  have hret : ¬ sendto_ret < 0 := by omega
  unfold msgq_send
  simp only [hn, hsz, Nat.add_sub_cancel_left, block_drop_all, List.append_nil,
    List.take_length]
  rw [if_neg (by omega)]
  unfold msgq_send_
  simp only [hn, Nat.add_sub_cancel_left, List.take_length, hret, if_false]
  rw [if_neg (by omega)]

/-- The node that `msgq_node_create` builds when both allocations succeed and
the packet has at least one payload byte. -/
theorem msgq_node_create_eq (P : Platform) (j_node j_packet : Nat → Byte) (sender : List Byte)
    (packet : msgq_packet) (hres : packet.resident P) (h1 : 1 ≤ packet.size) :
    msgq_node_create P (some j_node) (some j_packet) sender packet = .ok (some
      { sender := strncpy sender (P.UNIX_PATH_MAX - 1) ++
          (Malloc.block j_node P.UNIX_PATH_MAX).drop (P.UNIX_PATH_MAX - 1),
        packet :=
          { size := packet.size,
            container := some (strncpy sender (P.UNIX_PATH_MAX - 1) ++
              (Malloc.block j_node P.UNIX_PATH_MAX).drop (P.UNIX_PATH_MAX - 1)),
            data := packet.payload ++
              (if packet.data.get? (packet.size - 1) = some 0 then [] else [0]) } }) := by
  unfold msgq_node_create
  simp only [msgq_copy_packet_eq P packet j_packet hres h1]

/-- The pass of the receiver loop on a datagram that carries its header, whose
validated packet has at least one payload byte inside the buffer, and that is
not taken for the control message: with both allocations succeeding, the node
made from the validated packet is appended and the count incremented. -/
theorem receiver_body_of_valid (P : Platform) (hP : P.wf) (msgq : msgq_) (r : RecvFrom)
    (j_node j_packet : Nat → Byte)
    (hlen : (P.hdr : Int) ≤ r.len) (hmax : r.len ≤ P.MSGQ_MSG_MAX)
    (hsz : r.pkbuf.size < 2 ^ (P.wordBits - 1))
    (h1 : 1 ≤ min r.pkbuf.size (r.len - P.hdr).toNat)
    (hdata : min r.pkbuf.size (r.len - P.hdr).toNat ≤ r.pkbuf.data.length)
    (hns : r.sun_path ≠ msgq.address ∨ strncmp_eq r.pkbuf.data shutdown_literal 8 = .ok false) :
    msgq_receiver_body P msgq r (some j_node) (some j_packet) =
      .ok (.enqueued (msgq.broadcast ≠ 0),
        { msgq with
          recvq := msgq.recvq ++
            [{ sender := strncpy r.sun_path (P.UNIX_PATH_MAX - 1) ++
                 (Malloc.block j_node P.UNIX_PATH_MAX).drop (P.UNIX_PATH_MAX - 1),
               packet :=
                 { size := min r.pkbuf.size (r.len - P.hdr).toNat,
                   container := some (strncpy r.sun_path (P.UNIX_PATH_MAX - 1) ++
                     (Malloc.block j_node P.UNIX_PATH_MAX).drop (P.UNIX_PATH_MAX - 1)),
                   data := r.pkbuf.data.take (min r.pkbuf.size (r.len - P.hdr).toNat) ++
                     (if r.pkbuf.data.get? (min r.pkbuf.size (r.len - P.hdr).toNat - 1) = some 0
                      then [] else [0]) } }],
          recvs := recvs_inc P msgq.recvs }) := by
  have hv := validate_packet_size_of_small P hP r.pkbuf r.len hlen hmax hsz
  obtain ⟨hs, hsw, hh, hms, hm, _⟩ := hP
  have hw : 0 < P.wordBits := by omega
  have hpw := pow_pred_lt_pow P.wordBits hw
  have hmax' : (r.len - (P.hdr : Int)).toNat ≤ P.MSGQ_MSG_MAX := by omega
  have hres : msgq_packet.resident P
      { r.pkbuf with size := min r.pkbuf.size (r.len - P.hdr).toNat, container := none } := by
    refine ⟨?_, hdata, ?_⟩
    · show min r.pkbuf.size (r.len - P.hdr).toNat < 2 ^ P.sizeBits
      have := Nat.min_le_right r.pkbuf.size (r.len - (P.hdr : Int)).toNat
      omega
    · show P.hdr + min r.pkbuf.size (r.len - P.hdr).toNat + 1 < 2 ^ P.wordBits
      have := Nat.min_le_right r.pkbuf.size (r.len - (P.hdr : Int)).toNat
      omega
  have hsc : (if r.sun_path = msgq.address then
        strncmp_eq r.pkbuf.data shutdown_literal 8 else .ok false) = .ok false := by
    rcases hns with h | h
    · rw [if_neg h]
    · rw [h]; simp
  unfold msgq_receiver_body
  have hneg : ¬ r.len < 0 := by omega
  simp only [hneg, if_false, hv, lt_self_iff_false, hsc,
    msgq_node_create_eq P j_node j_packet r.sun_path _ hres h1]
  rfl

/-- C4 (counterexample).  The 9-byte payload `shutdown!`, which is not the
literal `shutdown`, sent on ILP32 by an endpoint to its own address `/a` and
delivered whole: `msgq_send` builds the frame, the receiver takes it for the
control message and leaves the loop without a node, and the next `msgq_recv`
returns `NULL`. -/
theorem round_trip_fails_on_shutdown_head :
    Sample.shutdown_bang ≠ shutdown8 ∧
    msgq_send ilp32 Sample.heap [47, 97] Sample.shutdown_bang 9 0
      = .ok (0, some (Sample.frame Sample.shutdown_bang)) ∧
    msgq_receiver_body ilp32 Sample.endpoint
        (recvfrom_whole ilp32 (Sample.frame Sample.shutdown_bang) Sample.endpoint.address [] 0)
        Sample.heap Sample.heap
      = .ok (.shutdown, Sample.endpoint) ∧
    (msgq_recv ilp32 Sample.endpoint).1 = none := by
  refine ⟨by decide, by decide, by decide, by decide⟩

/-- C4 (amended).  Round trip.  A payload of `n ≥ 1` bytes whose frame fits in
`MSGQ_MSG_MAX` is framed by `msgq_send`; when the frame arrives whole from the
address `s` (a C string that fits `sender` with its terminator), and `s` is
not the own address of the receiver or the payload differs from `shutdown`
within its first 8 bytes, and the allocations succeed, then the receiver
appends a node whose packet every receive call returns once the node is the
oldest, and that packet has size `n`, the payload sent, and `msgq_pkt_sender`
gives the C string `s`. -/
theorem round_trip (P : Platform) (hP : P.wf) (msgq : msgq_)
    (payload s receiver stale : List Byte) (j_send j_node j_packet : Nat → Byte)
    (errno : Nat) (sendto_ret : Int) (hsend : 0 ≤ sendto_ret)
    (hn : 1 ≤ payload.length) (hfit : P.hdr + payload.length ≤ P.MSGQ_MSG_MAX)
    (hnul : (0 : Byte) ∉ s) (hslen : s.length + 1 < P.UNIX_PATH_MAX)
    (hns : s ≠ msgq.address ∨ strncmp_eq payload shutdown_literal 8 = .ok false) :
    ∃ d np,
      msgq_send P (some j_send) receiver payload payload.length sendto_ret = .ok (0, some d) ∧
      msgq_receiver_body P msgq (recvfrom_whole P d s stale errno) (some j_node) (some j_packet)
        = .ok (.enqueued (msgq.broadcast ≠ 0),
            { msgq with recvq := msgq.recvq ++ [np], recvs := recvs_inc P msgq.recvs }) ∧
      (∀ (m : msgq_) (rest : List msgq_node) (c : RecvCall), m.recvq = np :: rest →
        (c.run P m).1 = some np.packet) ∧
      np.packet.size = payload.length ∧ np.packet.payload = payload ∧
      (msgq_pkt_sender np.packet).map cstr = some (.ok s) := by
  have hP' := hP
  obtain ⟨hs, hsw, hh, hms, hm, _⟩ := hP
  have hw : 0 < P.wordBits := by omega
  have hpw := pow_pred_lt_pow P.wordBits hw
  have hdat : (recvfrom_whole P
      { dest := strncpy receiver (P.UNIX_PATH_MAX - 1),
        packet := { size := payload.length, container := none, data := payload },
        len := P.hdr + payload.length } s stale errno).pkbuf.data
      = payload ++ stale.drop payload.length := by
    simp [recvfrom_whole]
  have hlen : (recvfrom_whole P
      { dest := strncpy receiver (P.UNIX_PATH_MAX - 1),
        packet := { size := payload.length, container := none, data := payload },
        len := P.hdr + payload.length } s stale errno).len = (P.hdr : Int) + payload.length := by
    simp [recvfrom_whole]
  have hmin : min payload.length ((P.hdr : Int) + payload.length - P.hdr).toNat
      = payload.length := by
    apply min_eq_left; omega
  have hbody := receiver_body_of_valid P hP' msgq
    (recvfrom_whole P
      { dest := strncpy receiver (P.UNIX_PATH_MAX - 1),
        packet := { size := payload.length, container := none, data := payload },
        len := P.hdr + payload.length } s stale errno) j_node j_packet
    (by rw [hlen]; omega) (by rw [hlen]; exact_mod_cast hfit)
    (by show payload.length < _; omega)
    (by rw [hlen]; show 1 ≤ min payload.length _; rw [hmin]; exact hn)
    (by rw [hlen, hdat]; show min payload.length _ ≤ _; rw [hmin]; simp)
    (by
      rcases hns with h | h
      · exact Or.inl h
      · right; rw [hdat]; exact strncmp_eq_append_false _ _ _ _ h)
  refine ⟨_, _, msgq_send_eq P hP' j_send receiver payload sendto_ret hsend hfit, hbody,
    ?_, ?_, ?_, ?_⟩
  · intro m rest c hm
    rw [RecvCall.run_cons P m _ rest c hm]
  · rw [hlen]; show min payload.length _ = _; exact hmin
  · rw [hlen, hdat]
    show List.take (min payload.length _) (List.take (min payload.length _) _ ++ _) = payload
    rw [hmin, List.take_left' rfl, List.take_append_of_le_length (le_refl _), List.take_length]
  · show Option.map cstr (some _) = _
    rw [Option.map_some']
    congr 1
    exact cstr_sender_array s P.UNIX_PATH_MAX j_node hnul hslen

theorem round_trip_witness :
    ∃ d np,
      msgq_send ilp32 (some Sample.junk) [47, 97] Sample.ping Sample.ping.length 0
        = .ok (0, some d) ∧
      msgq_receiver_body ilp32 Sample.endpoint (recvfrom_whole ilp32 d [47, 98] [] 0)
          (some Sample.junk) (some Sample.junk)
        = .ok (.enqueued (Sample.endpoint.broadcast ≠ 0),
            { Sample.endpoint with recvq := Sample.endpoint.recvq ++ [np],
                                   recvs := recvs_inc ilp32 Sample.endpoint.recvs }) ∧
      (∀ (m : msgq_) (rest : List msgq_node) (c : RecvCall), m.recvq = np :: rest →
        (c.run ilp32 m).1 = some np.packet) ∧
      np.packet.size = Sample.ping.length ∧ np.packet.payload = Sample.ping ∧
      (msgq_pkt_sender np.packet).map cstr = some (.ok [47, 98]) :=
  round_trip ilp32 (by decide) Sample.endpoint Sample.ping [47, 98] [47, 97] []
    Sample.junk Sample.junk Sample.junk 0 0 (by decide) (by decide) (by decide) (by decide)
    (by decide) (by decide)

/-! ## The control message -/

theorem strncmp_eq_take (n : Nat) : ∀ (a b : List Byte), n ≤ a.length → n ≤ b.length →
    (∀ c ∈ b.take n, c ≠ 0) →
    strncmp_eq a b n = .ok (decide (a.take n = b.take n)) := by
  induction n with
  | zero => intro a b _ _ _; simp [strncmp_eq]
  | succ n ih =>
    intro a b ha hb hz
    cases a with
    | nil => simp at ha
    | cons x xs =>
      cases b with
      | nil => simp at hb
      | cons y ys =>
        simp only [strncmp_eq, List.take_succ_cons]
        by_cases hxy : x = y
        · subst hxy
          have hx0 : x ≠ 0 := hz x (by simp)
          have := ih xs ys (by simpa using ha) (by simpa using hb)
            (fun c hc => hz c (by simp [hc]))
          simp only [ne_eq, not_true_eq_false, if_false, hx0, this]
          simp
        · simp [hxy]

theorem strncmp_eq_shutdown (data : List Byte) (h : 8 ≤ data.length) :
    strncmp_eq data shutdown_literal 8 = .ok (decide (data.take 8 = shutdown8)) :=
  by
  have h := strncmp_eq_take 8 data shutdown_literal h (by decide)
    (by intro c hc; simp [shutdown_literal] at hc; rcases hc with h | h | h | h | h | h | h | h <;> (subst h; decide))
  exact h

/-- The body of the receiver loop leaves through the control-message exit
exactly when the sender is the own address and the data area starts with the
8 characters of `shutdown`, whatever follows them. -/
theorem receiver_body_shutdown_iff (P : Platform) (hP : P.wf) (msgq msgq1 : msgq_)
    (r : RecvFrom) (m_node m_packet : Malloc)
    (hlen : (P.hdr : Int) ≤ r.len) (hmax : r.len ≤ P.MSGQ_MSG_MAX)
    (hdata : 8 ≤ r.pkbuf.data.length) :
    msgq_receiver_body P msgq r m_node m_packet = .ok (.shutdown, msgq1) ↔
      (r.sun_path = msgq.address ∧ r.pkbuf.data.take 8 = shutdown8) ∧ msgq1 = msgq := by
  have hst := validate_packet_status P hP r.pkbuf r.len (by omega) hmax
  rw [if_neg (by omega)] at hst
  have hdat := validate_packet_data P r.pkbuf r.len
  have hneg : ¬ r.len < 0 := by omega
  unfold msgq_receiver_body
  simp only [hneg, if_false, hst, lt_self_iff_false, hdat, strncmp_eq_shutdown _ hdata]
  by_cases ha : r.sun_path = msgq.address
  · by_cases hd : r.pkbuf.data.take 8 = shutdown8
    · simp only [ha, hd, if_true, decide_True, true_and]
      constructor
      · intro h; injection h with h; injection h with _ h; exact h.symm
      · intro h; rw [h]
    · simp only [ha, hd, if_true, decide_False, true_and, false_and, iff_false]
      cases msgq_node_create P m_node m_packet msgq.address _ with
      | error f => simp
      | ok o => cases o <;> simp
  · simp only [ha, if_false, false_and, iff_false]
    cases msgq_node_create P m_node m_packet r.sun_path _ with
    | error f => simp
    | ok o => cases o <;> simp

/-- The pass of the receiver loop on a datagram that carries its header and
whose validated packet lies in memory with at least one payload byte, when
the datagram is not taken for the control message and both allocations
succeed: the node made from the validated packet is appended. -/
theorem receiver_body_of_accepted (P : Platform) (hP : P.wf) (msgq : msgq_) (r : RecvFrom)
    (j_node j_packet : Nat → Byte)
    (hlen : (P.hdr : Int) ≤ r.len) (hmax : r.len ≤ P.MSGQ_MSG_MAX)
    (h1 : 1 ≤ (validate_packet P r.pkbuf r.len).2.size)
    (hres : (validate_packet P r.pkbuf r.len).2.resident P)
    (hns : r.sun_path ≠ msgq.address ∨ strncmp_eq r.pkbuf.data shutdown_literal 8 = .ok false) :
    ∃ np, msgq_receiver_body P msgq r (some j_node) (some j_packet) =
        .ok (.enqueued (msgq.broadcast ≠ 0),
          { msgq with recvq := msgq.recvq ++ [np], recvs := recvs_inc P msgq.recvs }) ∧
      np.packet.size = (validate_packet P r.pkbuf r.len).2.size ∧
      np.packet.payload = (validate_packet P r.pkbuf r.len).2.payload := by
  have hst := validate_packet_status P hP r.pkbuf r.len (by omega) hmax
  rw [if_neg (by omega)] at hst
  have hdat := validate_packet_data P r.pkbuf r.len
  have hsc : (if r.sun_path = msgq.address then
        strncmp_eq r.pkbuf.data shutdown_literal 8 else .ok false) = .ok false := by
    rcases hns with h | h
    · rw [if_neg h]
    · rw [h]; simp
  have hneg : ¬ r.len < 0 := by omega
  have hpl := payload_length _ hres.2.1
  refine ⟨{ sender := strncpy r.sun_path (P.UNIX_PATH_MAX - 1) ++
              (Malloc.block j_node P.UNIX_PATH_MAX).drop (P.UNIX_PATH_MAX - 1),
            packet :=
              { size := (validate_packet P r.pkbuf r.len).2.size,
                container := some (strncpy r.sun_path (P.UNIX_PATH_MAX - 1) ++
                  (Malloc.block j_node P.UNIX_PATH_MAX).drop (P.UNIX_PATH_MAX - 1)),
                data := (validate_packet P r.pkbuf r.len).2.payload ++
                  (if (validate_packet P r.pkbuf r.len).2.data.get?
                      ((validate_packet P r.pkbuf r.len).2.size - 1) = some 0
                   then [] else [0]) } }, ?_, ?_, ?_⟩
  · unfold msgq_receiver_body
    simp only [hneg, if_false, hst, lt_self_iff_false, hdat, hsc,
      msgq_node_create_eq P j_node j_packet r.sun_path _ hres h1]
    rfl
  · rfl
  · show List.take (validate_packet P r.pkbuf r.len).2.size
      ((validate_packet P r.pkbuf r.len).2.payload ++ _) = _
    rw [List.take_append_of_le_length (by omega), List.take_of_length_le (by omega)]

/-- C5 (counterexample).  On ILP32 the validated datagram with the 9-byte
payload `shutdown!`, received from the own address of the endpoint, is not the
literal `shutdown`, and the receiver still takes it for the control message:
it leaves the loop and appends nothing. -/
theorem shutdown_head_taken_for_control :
    (validate_packet ilp32
        (recvfrom_whole ilp32 (Sample.frame Sample.shutdown_bang) Sample.endpoint.address [] 0).pkbuf
        17).1 = 0 ∧
    (validate_packet ilp32
        (recvfrom_whole ilp32 (Sample.frame Sample.shutdown_bang) Sample.endpoint.address [] 0).pkbuf
        17).2.payload = Sample.shutdown_bang ∧
    Sample.shutdown_bang ≠ shutdown8 ∧
    Sample.shutdown_bang ≠ shutdown_literal ∧
    msgq_receiver_body ilp32 Sample.endpoint
        (recvfrom_whole ilp32 (Sample.frame Sample.shutdown_bang) Sample.endpoint.address [] 0)
        Sample.heap Sample.heap
      = .ok (.shutdown, Sample.endpoint) := by
  refine ⟨by decide, by decide, by decide, by decide, by decide⟩

theorem receiver_body_other_sender (P : Platform) (msgq msgq1 : msgq_) (r : RecvFrom)
    (m_node m_packet : Malloc) (ha : r.sun_path ≠ msgq.address) :
    msgq_receiver_body P msgq r m_node m_packet ≠ .ok (.shutdown, msgq1) := by
  unfold msgq_receiver_body
  simp only [ha, if_false]
  split
  · split <;> simp
  · split
    · simp
    · cases msgq_node_create P m_node m_packet r.sun_path _ with
      | error f => simp
      | ok o => cases o <;> simp

/-- When the comparison `strncmp(a, b, n)` runs out of `a` before `n`
characters and `a` is not an initial segment of `b`, it finds a difference
inside `a`. -/
theorem strncmp_eq_of_not_head (a : List Byte) :
    ∀ (b : List Byte) (n : Nat), a.length ≤ n → n ≤ b.length →
      (∀ c ∈ b.take n, c ≠ 0) → ¬ a <+: b.take n → strncmp_eq a b n = .ok false := by
  induction a with
  | nil =>
    intro b n _ _ _ hnp
    exact absurd List.nil_prefix hnp
  | cons x xs ih =>
    intro b n ha hb hz hnp
    cases n with
    | zero => simp at ha
    | succ m =>
      cases b with
      | nil => simp at hb
      | cons y ys =>
        simp only [strncmp_eq]
        by_cases hxy : x = y
        · subst hxy
          have hx0 : x ≠ 0 := hz x (by simp)
          simp only [ne_eq, not_true_eq_false, if_false, hx0]
          apply ih ys m (by simpa using ha) (by simpa using hb)
            (fun c hc => hz c (by simp [hc]))
          intro hp
          apply hnp
          rw [List.take_succ_cons]
          exact (List.cons_prefix_cons).mpr ⟨rfl, hp⟩
        · simp [hxy]

/-- The exit of the body of the receiver loop through the control message, in
terms of the comparison that the code makes. -/
theorem receiver_body_shutdown_strncmp (P : Platform) (hP : P.wf) (msgq msgq1 : msgq_)
    (r : RecvFrom) (m_node m_packet : Malloc)
    (hlen : (P.hdr : Int) ≤ r.len) (hmax : r.len ≤ P.MSGQ_MSG_MAX) :
    msgq_receiver_body P msgq r m_node m_packet = .ok (.shutdown, msgq1) ↔
      (r.sun_path = msgq.address ∧ strncmp_eq r.pkbuf.data shutdown_literal 8 = .ok true) ∧
        msgq1 = msgq := by
  have hst := validate_packet_status P hP r.pkbuf r.len (by omega) hmax
  rw [if_neg (by omega)] at hst
  have hdat := validate_packet_data P r.pkbuf r.len
  have hneg : ¬ r.len < 0 := by omega
  unfold msgq_receiver_body
  simp only [hneg, if_false, hst, lt_self_iff_false, hdat]
  by_cases ha : r.sun_path = msgq.address
  · simp only [ha, if_true, true_and]
    cases hs : strncmp_eq r.pkbuf.data shutdown_literal 8 with
    | error f => simp
    | ok bres =>
      cases bres with
      | true =>
        simp only [true_and]
        constructor
        · intro h; injection h with h; injection h with _ h; exact h.symm
        · intro h; rw [h]
      | false =>
        simp only [Except.ok.injEq, Bool.false_eq_true, false_and, iff_false]
        cases msgq_node_create P m_node m_packet msgq.address _ with
        | error f => simp
        | ok o => cases o <;> simp
  · simp only [ha, if_false, false_and, iff_false]
    cases msgq_node_create P m_node m_packet r.sun_path _ with
    | error f => simp
    | ok o => cases o <;> simp

/-- The comparison with `shutdown` on the data area decides by the payload
alone, unless the payload is shorter than 8 bytes and an initial segment of
`shutdown`. -/
theorem strncmp_eq_shutdown_payload (data : List Byte) (size : Nat) (hdata : size ≤ data.length)
    (hdec : ¬ (size < 8 ∧ data.take size <+: shutdown8)) :
    strncmp_eq data shutdown_literal 8 =
      .ok (decide ((data.take size).take 8 = shutdown8)) := by
  by_cases h8 : 8 ≤ size
  · rw [strncmp_eq_shutdown data (by omega), List.take_take, min_eq_left h8]
  · have hlt : size < 8 := by omega
    have hnp : ¬ data.take size <+: shutdown8 := fun hp => hdec ⟨hlt, hp⟩
    have hl : (data.take size).length = size := by rw [List.length_take]; omega
    have hfalse : strncmp_eq (data.take size) shutdown_literal 8 = .ok false :=
      strncmp_eq_of_not_head (data.take size) shutdown_literal 8 (by omega) (by decide)
        (by
          intro c hc
          simp [shutdown_literal] at hc
          rcases hc with h | h | h | h | h | h | h | h <;> (subst h; decide))
        hnp
    have hsplit : data = data.take size ++ data.drop size := (List.take_append_drop _ _).symm
    have hne : ¬ (data.take size).take 8 = shutdown8 := by
      intro hcon
      have := congrArg List.length hcon
      rw [List.length_take, hl] at this
      simp [shutdown8] at this
      omega
    rw [hsplit, strncmp_eq_append_false _ _ _ _ hfalse, ← hsplit]
    simp [hne]

/-- C5 (amended).  For every validated datagram whose payload lies inside the
receive buffer, other than one from the own address whose payload is shorter
than 8 bytes and an initial segment of `shutdown`: the receiver leaves the
loop through the control-message exit, with the endpoint unchanged, if and
only if the remote address equals the own address of the endpoint and the
first 8 payload bytes are `shutdown` (bytes after the eighth are not
compared); every other such datagram with at least one payload byte, one from
another address with payload `shutdown` and one from the own address with
another payload included, is appended to the queue when the two allocations
succeed. -/
theorem shutdown_recognition (P : Platform) (hP : P.wf) (msgq : msgq_) (r : RecvFrom)
    (m_node m_packet : Malloc) (j_node j_packet : Nat → Byte)
    (hlen : (P.hdr : Int) ≤ r.len) (hwf : r.wf P)
    (hdata : (validate_packet P r.pkbuf r.len).2.size ≤ r.pkbuf.data.length)
    (hdec : ¬ (r.sun_path = msgq.address ∧ (validate_packet P r.pkbuf r.len).2.size < 8 ∧
      (validate_packet P r.pkbuf r.len).2.payload <+: shutdown8)) :
    (msgq_receiver_body P msgq r m_node m_packet = .ok (.shutdown, msgq) ↔
      r.sun_path = msgq.address ∧
        (validate_packet P r.pkbuf r.len).2.payload.take 8 = shutdown8) ∧
    (∀ msgq1, msgq_receiver_body P msgq r m_node m_packet = .ok (.shutdown, msgq1) →
      msgq1 = msgq) ∧
    (1 ≤ (validate_packet P r.pkbuf r.len).2.size →
      ¬ (r.sun_path = msgq.address ∧
        (validate_packet P r.pkbuf r.len).2.payload.take 8 = shutdown8) →
      ∃ np, msgq_receiver_body P msgq r (some j_node) (some j_packet) =
          .ok (.enqueued (msgq.broadcast ≠ 0),
            { msgq with recvq := msgq.recvq ++ [np], recvs := recvs_inc P msgq.recvs }) ∧
        np.packet.size = (validate_packet P r.pkbuf r.len).2.size ∧
        np.packet.payload = (validate_packet P r.pkbuf r.len).2.payload) := by
  obtain ⟨hmax, hbuf, hsb⟩ := hwf
  have hdat := validate_packet_data P r.pkbuf r.len
  have hpay : (validate_packet P r.pkbuf r.len).2.payload
      = r.pkbuf.data.take (validate_packet P r.pkbuf r.len).2.size := by
    unfold msgq_packet.payload
    rw [hdat]
  have hcmp : r.sun_path = msgq.address →
      strncmp_eq r.pkbuf.data shutdown_literal 8 =
        .ok (decide ((validate_packet P r.pkbuf r.len).2.payload.take 8 = shutdown8)) := by
    intro ha
    rw [hpay]
    apply strncmp_eq_shutdown_payload _ _ hdata
    rintro ⟨hlt, hp⟩
    exact hdec ⟨ha, hlt, by rw [hpay]; exact hp⟩
  have hP' := hP
  obtain ⟨hs, hsw, hh, hms, hm, _⟩ := hP
  have hw : 0 < P.wordBits := by omega
  have hpw := pow_pred_lt_pow P.wordBits hw
  refine ⟨?_, ?_, ?_⟩
  · rw [receiver_body_shutdown_strncmp P hP' msgq msgq r m_node m_packet hlen hmax]
    constructor
    · rintro ⟨⟨ha, hc⟩, _⟩
      rw [hcmp ha] at hc
      refine ⟨ha, ?_⟩
      simpa using hc
    · rintro ⟨ha, hx⟩
      refine ⟨⟨ha, ?_⟩, rfl⟩
      rw [hcmp ha]
      simp [hx]
  · intro msgq1 h
    exact ((receiver_body_shutdown_strncmp P hP' msgq msgq1 r m_node m_packet hlen hmax).mp h).2
  · intro h1 hnot
    apply receiver_body_of_accepted P hP' msgq r j_node j_packet hlen hmax h1
    · exact ⟨validate_packet_size_lt P r.pkbuf r.len hsb, by rw [hdat]; exact hdata, by omega⟩
    · by_cases ha : r.sun_path = msgq.address
      · right
        rw [hcmp ha]
        have : ¬ (validate_packet P r.pkbuf r.len).2.payload.take 8 = shutdown8 :=
          fun h => hnot ⟨ha, h⟩
        simp [this]
      · exact Or.inl ha

theorem shutdown_recognition_witness :
    ∃ np, msgq_receiver_body ilp32 Sample.endpoint
          (recvfrom_whole ilp32 (Sample.frame Sample.ping) Sample.endpoint.address [] 0)
          (some Sample.junk) (some Sample.junk) =
        .ok (.enqueued (Sample.endpoint.broadcast ≠ 0),
          { Sample.endpoint with recvq := Sample.endpoint.recvq ++ [np],
                                 recvs := recvs_inc ilp32 Sample.endpoint.recvs }) ∧
      np.packet.size = (validate_packet ilp32
        (recvfrom_whole ilp32 (Sample.frame Sample.ping) Sample.endpoint.address [] 0).pkbuf
        12).2.size ∧
      np.packet.payload = (validate_packet ilp32
        (recvfrom_whole ilp32 (Sample.frame Sample.ping) Sample.endpoint.address [] 0).pkbuf
        12).2.payload :=
  (shutdown_recognition ilp32 (by decide) Sample.endpoint
    (recvfrom_whole ilp32 (Sample.frame Sample.ping) Sample.endpoint.address [] 0) none none
    Sample.junk Sample.junk (by decide) (by decide) (by decide) (by decide)).2.2
    (by decide) (by decide)

/-- The datagram that `msgq_close` sends, the characters of `shutdown` and a
terminator from the endpoint to itself, leaves the loop of the receiver when
it arrives whole. -/
theorem close_message_is_control (P : Platform) (hP : P.wf) (msgq : msgq_) (junk : Nat → Byte)
    (stale : List Byte) (errno : Nat) (m_node m_packet : Malloc)
    (hfit : P.hdr + 9 ≤ P.MSGQ_MSG_MAX) :
    ∃ d, msgq_close_send P (some junk) msgq 0 = .ok (0, some d) ∧
      msgq_receiver_body P msgq (recvfrom_whole P d msgq.address stale errno) m_node m_packet
        = .ok (.shutdown, msgq) := by
  have hP' := hP
  obtain ⟨hs, hsw, hh, hms, hm, _⟩ := hP
  have hw : 0 < P.wordBits := by omega
  have hpw := pow_pred_lt_pow P.wordBits hw
  have hn : (P.hdr + 9) % 2 ^ P.wordBits = P.hdr + 9 := Nat.mod_eq_of_lt (by omega)
  have h9 : (9 : Nat) % 2 ^ P.sizeBits = 9 := Nat.mod_eq_of_lt (by omega)
  have hsend : msgq_close_send P (some junk) msgq 0 = .ok (0, some
      { dest := strncpy msgq.address (P.UNIX_PATH_MAX - 1),
        packet := { size := 9, container := none, data := Sample.shutdown_nul },
        len := P.hdr + 9 }) := by
    unfold msgq_close_send msgq_send_string msgq_send_
    have hl : (shutdown8 ++ [0]).length = 9 := by decide
    have hl2 : shutdown8.length + 1 = 9 := by decide
    simp only [hl, hl2, h9, hn, Nat.add_sub_cancel_left]
    rw [if_neg (by omega)]
    rfl
  refine ⟨_, hsend, ?_⟩
  rw [receiver_body_shutdown_iff P hP' msgq msgq _ m_node m_packet
    (by simp [recvfrom_whole]) (by simp only [recvfrom_whole]; exact_mod_cast hfit)
    (by simp [recvfrom_whole, Sample.shutdown_nul, shutdown8])]
  refine ⟨⟨rfl, ?_⟩, rfl⟩
  simp [recvfrom_whole, Sample.shutdown_nul, shutdown8]

/-! ## Receiving on a dead or idle endpoint -/

theorem msgq_recv_timedwait_loop_dead (P : Platform) (msgq : msgq_) (abstime : Option timespec)
    (errno : Nat) (wakes : List Wake) (k : Nat) (hq : msgq.recvq = [])
    (hd : msgq.receiver_status = MSGQ_STAT_DEAD) :
    msgq_recv_timedwait_loop P msgq abstime errno wakes k =
      { blocked := false, ret := none, errno := EADDRNOTAVAIL, msgq := msgq,
        abstime := abstime, waits := k } := by
  unfold msgq_recv_timedwait_loop
  rw [hq]
  cases wakes <;> simp [edque_pop_front, hd]

/-- C6.  On an endpoint whose receiver is `MSGQ_STAT_DEAD`, `msgq_recv_wait`
returns without entering the condition wait, whatever wakes would come: it
returns `NULL` exactly when the queue is empty, then with `errno` set to
`EADDRNOTAVAIL` and the endpoint untouched, and otherwise it returns the
packet of the oldest node and unlinks that node. -/
theorem recv_wait_on_dead (P : Platform) (msgq : msgq_) (errno : Nat) (wakes : List Wake)
    (hd : msgq.receiver_status = MSGQ_STAT_DEAD) :
    (msgq_recv_wait P msgq errno wakes).blocked = false ∧
    (msgq_recv_wait P msgq errno wakes).waits = 0 ∧
    (((msgq_recv_wait P msgq errno wakes).ret = none ∧
        (msgq_recv_wait P msgq errno wakes).errno = EADDRNOTAVAIL) ↔ msgq.recvq = []) ∧
    (msgq.recvq = [] → (msgq_recv_wait P msgq errno wakes).msgq = msgq) ∧
    (∀ np q, msgq.recvq = np :: q →
      (msgq_recv_wait P msgq errno wakes).ret = some np.packet ∧
      (msgq_recv_wait P msgq errno wakes).msgq.recvq = q ∧
      (msgq_recv_wait P msgq errno wakes).msgq.recvs = recvs_dec P msgq.recvs) := by
  unfold msgq_recv_wait msgq_recv_timedwait
  cases hq : msgq.recvq with
  | nil =>
    rw [msgq_recv_timedwait_loop_dead P msgq none errno wakes 0 hq hd]
    simp
  | cons np q =>
    rw [msgq_recv_timedwait_loop_cons P msgq np q none errno wakes 0 hq]
    simp

theorem recv_wait_on_dead_witness :
    (msgq_recv_wait ilp32 Sample.dead_filled 0 []).blocked
      = false ∧
    (msgq_recv_wait ilp32 Sample.dead_filled 0 []).waits
      = 0 ∧
    (((msgq_recv_wait ilp32 Sample.dead_filled 0 []).ret
        = none ∧
      (msgq_recv_wait ilp32 Sample.dead_filled 0 []).errno
        = EADDRNOTAVAIL) ↔
      Sample.dead_filled.recvq = []) ∧
    (Sample.dead_filled.recvq = [] →
      (msgq_recv_wait ilp32 Sample.dead_filled 0 []).msgq
        = Sample.dead_filled) ∧
    (∀ np q, Sample.dead_filled.recvq = np :: q →
      (msgq_recv_wait ilp32 Sample.dead_filled 0 []).ret
        = some np.packet ∧
      (msgq_recv_wait ilp32
        Sample.dead_filled 0 []).msgq.recvq = q ∧
      (msgq_recv_wait ilp32
        Sample.dead_filled 0 []).msgq.recvs
        = recvs_dec ilp32 Sample.dead_filled.recvs) :=
  recv_wait_on_dead ilp32 Sample.dead_filled 0 [] rfl

/-- A run of the loop of `msgq_recv_timedwait` that hands back no packet has
written nothing to the endpoint: the endpoint is as the other threads left it
during the waits that returned. -/
theorem msgq_recv_timedwait_loop_frame (P : Platform) (wakes : List Wake) :
    ∀ (msgq : msgq_) (abstime : Option timespec) (errno k : Nat),
      (msgq_recv_timedwait_loop P msgq abstime errno wakes k).ret = none →
      k ≤ (msgq_recv_timedwait_loop P msgq abstime errno wakes k).waits ∧
      (msgq_recv_timedwait_loop P msgq abstime errno wakes k).msgq =
        Wake.replay msgq
          (wakes.take ((msgq_recv_timedwait_loop P msgq abstime errno wakes k).waits - k)) := by
  induction wakes with
  | nil =>
    intro msgq abstime errno k h
    cases hq : msgq.recvq with
    | cons np q =>
      rw [msgq_recv_timedwait_loop_cons P msgq np q abstime errno [] k hq] at h
      cases h
    | nil =>
      unfold msgq_recv_timedwait_loop
      rw [hq]
      by_cases hd : msgq.receiver_status = MSGQ_STAT_DEAD <;>
        simp [edque_pop_front, hd, Wake.replay]
  | cons w ws ih =>
    intro msgq abstime errno k h
    cases hq : msgq.recvq with
    | cons np q =>
      rw [msgq_recv_timedwait_loop_cons P msgq np q abstime errno _ k hq] at h
      cases h
    | nil =>
      unfold msgq_recv_timedwait_loop at h ⊢
      rw [hq] at h ⊢
      simp only [edque_pop_front] at h ⊢
      by_cases hd : msgq.receiver_status = MSGQ_STAT_DEAD
      · simp [hd, Wake.replay]
      · simp only [hd, if_false] at h ⊢
        by_cases hr : w.ret = 0
        · simp only [hr, ne_eq, not_true_eq_false, if_false] at h ⊢
          cases abstime with
          | none =>
            simp only at h ⊢
            obtain ⟨h1, h2⟩ := ih (w.apply msgq) none errno (k + 1) h
            refine ⟨by omega, ?_⟩
            rw [h2]
            have : (msgq_recv_timedwait_loop P (w.apply msgq) none errno ws (k + 1)).waits - k
                = ((msgq_recv_timedwait_loop P (w.apply msgq) none errno ws (k + 1)).waits
                    - (k + 1)) + 1 := by omega
            rw [this, List.take_succ_cons]
            rfl
          | some t =>
            simp only at h ⊢
            by_cases hz : (timespec_subtract P w.now t).1 = 0
            · simp [hz, Wake.replay]
            · simp only [hz, if_false] at h ⊢
              obtain ⟨h1, h2⟩ := ih (w.apply msgq) _ errno (k + 1) h
              refine ⟨by omega, ?_⟩
              rw [h2]
              have : (msgq_recv_timedwait_loop P (w.apply msgq)
                    (some (timespec_subtract P w.now t).2.2) errno ws (k + 1)).waits - k
                  = ((msgq_recv_timedwait_loop P (w.apply msgq)
                    (some (timespec_subtract P w.now t).2.2) errno ws (k + 1)).waits
                      - (k + 1)) + 1 := by omega
              rw [this, List.take_succ_cons]
              rfl
        · simp [hr, Wake.replay]

/-- C7.  A receive call that returns no packet leaves the receive queue and
the pending count as they were.  In every endpoint state `msgq_recv` that
returns `NULL` hands the endpoint back unchanged, and it returns `NULL` on an
empty queue; `msgq_recv_timedwait` that returns `NULL` has written nothing, the
endpoint being as the other threads left it during its waits; and on an empty
queue of a live endpoint, a wait that reports `ETIMEDOUT` makes it return
`NULL` with `errno` set to `ETIMEDOUT`, with `recvq` and `recvs` as the wait
handed them back, hence as before the call when no other thread touched
them. -/
theorem failed_receive_leaves_queue (P : Platform) (msgq : msgq_) :
    ((msgq_recv P msgq).1 = none → (msgq_recv P msgq).2 = msgq) ∧
    (msgq.recvq = [] → msgq_recv P msgq = (none, msgq)) ∧
    (∀ (abstime : Option timespec) (errno : Nat) (wakes : List Wake),
      (msgq_recv_timedwait P msgq abstime errno wakes).ret = none →
      (msgq_recv_timedwait P msgq abstime errno wakes).msgq =
        Wake.replay msgq
          (wakes.take (msgq_recv_timedwait P msgq abstime errno wakes).waits)) ∧
    (∀ (abstime : Option timespec) (errno : Nat) (w : Wake) (ws : List Wake),
      msgq.recvq = [] → msgq.receiver_status ≠ MSGQ_STAT_DEAD → w.ret = ETIMEDOUT →
      (msgq_recv_timedwait P msgq abstime errno (w :: ws)).blocked = false ∧
      (msgq_recv_timedwait P msgq abstime errno (w :: ws)).ret = none ∧
      (msgq_recv_timedwait P msgq abstime errno (w :: ws)).errno = ETIMEDOUT ∧
      (msgq_recv_timedwait P msgq abstime errno (w :: ws)).waits = 1 ∧
      (msgq_recv_timedwait P msgq abstime errno (w :: ws)).abstime = abstime ∧
      (msgq_recv_timedwait P msgq abstime errno (w :: ws)).msgq.recvq = w.recvq ∧
      (msgq_recv_timedwait P msgq abstime errno (w :: ws)).msgq.recvs = w.recvs ∧
      (w.recvq = msgq.recvq → w.recvs = msgq.recvs →
        (msgq_recv_timedwait P msgq abstime errno (w :: ws)).msgq.recvq = msgq.recvq ∧
        (msgq_recv_timedwait P msgq abstime errno (w :: ws)).msgq.recvs = msgq.recvs)) := by
  refine ⟨?_, msgq_recv_nil P msgq, ?_, ?_⟩
  · intro h
    cases hq : msgq.recvq with
    | nil => rw [msgq_recv_nil P msgq hq]
    | cons np q => rw [msgq_recv_cons P msgq np q hq] at h; cases h
  · intro abstime errno wakes h
    have := (msgq_recv_timedwait_loop_frame P wakes msgq abstime errno 0 h).2
    simpa [msgq_recv_timedwait] using this
  · intro abstime errno w ws hq hd hret
    have hne : w.ret ≠ 0 := by rw [hret]; decide
    have hres : msgq_recv_timedwait P msgq abstime errno (w :: ws) =
        { blocked := false, ret := none, errno := w.ret, msgq := w.apply msgq,
          abstime := abstime, waits := 1 } := by
      unfold msgq_recv_timedwait msgq_recv_timedwait_loop
      rw [hq]
      simp [edque_pop_front, hd, hne]
    rw [hres]
    refine ⟨rfl, rfl, hret, rfl, rfl, rfl, rfl, ?_⟩
    intro h1 h2
    exact ⟨h1, h2⟩

theorem failed_receive_leaves_queue_witness :
    (msgq_recv_timedwait ilp32 Sample.endpoint (some ⟨4, 0⟩) 0 [Sample.wake_timeout]).ret = none ∧
    (msgq_recv_timedwait ilp32 Sample.endpoint (some ⟨4, 0⟩) 0 [Sample.wake_timeout]).errno
      = ETIMEDOUT ∧
    (msgq_recv_timedwait ilp32 Sample.endpoint (some ⟨4, 0⟩) 0 [Sample.wake_timeout]).msgq.recvq
      = Sample.endpoint.recvq ∧
    (msgq_recv_timedwait ilp32 Sample.endpoint (some ⟨4, 0⟩) 0 [Sample.wake_timeout]).msgq.recvs
      = Sample.endpoint.recvs :=
  have h := (failed_receive_leaves_queue ilp32 Sample.endpoint).2.2.2 (some ⟨4, 0⟩) 0
    Sample.wake_timeout [] rfl (by decide) rfl
  ⟨h.2.1, h.2.2.1, (h.2.2.2.2.2.2.2 rfl rfl).1, (h.2.2.2.2.2.2.2 rfl rfl).2⟩

/-! ## Life cycle -/

theorem receiver_body_status (P : Platform) (msgq msgq1 : msgq_) (r : RecvFrom)
    (m_node m_packet : Malloc) (b : Branch)
    (h : msgq_receiver_body P msgq r m_node m_packet = .ok (b, msgq1)) :
    msgq1.receiver_status = msgq.receiver_status := by
  unfold msgq_receiver_body at h
  simp only at h
  split at h
  · split at h <;> (injection h with h; injection h with _ h; rw [← h])
  · split at h
    · injection h with h; injection h with _ h; rw [← h]
    · split at h
      · cases h
      · injection h with h; injection h with _ h; rw [← h]
      · split at h
        · cases h
        · injection h with h; injection h with _ h; rw [← h]
        · injection h with h; injection h with _ h; rw [← h]

theorem msgq_recv_effect (P : Platform) (msgq : msgq_) :
    (msgq_recv P msgq).2.receiver_status = msgq.receiver_status ∧
    ((msgq_recv P msgq).2.recvq = msgq.recvq ∨ (msgq_recv P msgq).2.recvq = msgq.recvq.tail) := by
  cases hq : msgq.recvq with
  | nil => rw [msgq_recv_nil P msgq hq]; simp [hq]
  | cons np q => rw [msgq_recv_cons P msgq np q hq]; simp

theorem msgq_close_drain_body_effect (P : Platform) (msgq msgq1 : msgq_)
    (h : msgq_close_drain_body P msgq = some msgq1) :
    msgq1.receiver_status = msgq.receiver_status ∧ msgq1.recvq = msgq.recvq.tail := by
  unfold msgq_close_drain_body at h
  cases hq : msgq.recvq with
  | nil => rw [hq] at h; simp [edque_pop_front] at h
  | cons np q =>
    rw [hq] at h
    simp only [edque_pop_front, Option.some.injEq] at h
    subst h
    simp

theorem Sys.step_inv (P : Platform) (s t : Sys) (a : Action) (hi : s.inv)
    (h : s.step P a = .ok t) : t.inv ∧ s.lifecycle_step t := by
  obtain ⟨msgq, pc⟩ := s
  cases a with
  | receiver r m_node m_packet =>
    cases pc with
    | entry =>
      simp only [Sys.step, Except.ok.injEq] at h
      subst h
      simp only [Sys.inv] at hi
      refine ⟨rfl, Or.inr ?_, fun hd => ?_⟩
      · show MSGQ_STAT_ALIVE = msgq.receiver_status + 1
        rw [hi]; rfl
      · rw [show ({ msgq := msgq, pc := Pc.entry } : Sys).msgq.receiver_status
          = msgq.receiver_status from rfl, hi] at hd
        exact absurd hd (by decide)
    | loop =>
      simp only [Sys.step] at h
      split at h
      · cases h
      · rename_i b msgq1 hb
        have hst := receiver_body_status P msgq msgq1 r m_node m_packet b hb
        simp only [Except.ok.injEq] at h
        subst h
        simp only [Sys.inv] at hi
        refine ⟨?_, ?_⟩
        · cases hl : b.leaves_loop <;> simp [Sys.inv, hst, hi]
        · refine ⟨Or.inl hst, fun hd => ?_⟩
          rw [show ({ msgq := msgq, pc := Pc.loop } : Sys).msgq.receiver_status
            = msgq.receiver_status from rfl, hi] at hd
          exact absurd hd (by decide)
    | leaving =>
      simp only [Sys.step, Except.ok.injEq] at h
      subst h
      simp only [Sys.inv] at hi
      refine ⟨rfl, Or.inr ?_, fun hd => ?_⟩
      · show MSGQ_STAT_DEAD = msgq.receiver_status + 1
        rw [hi]; rfl
      · rw [show ({ msgq := msgq, pc := Pc.leaving } : Sys).msgq.receiver_status
          = msgq.receiver_status from rfl, hi] at hd
        exact absurd hd (by decide)
    | exited =>
      simp only [Sys.step, Except.ok.injEq] at h
      subst h
      exact ⟨hi, Or.inl rfl, fun hd => ⟨hd, Or.inl rfl⟩⟩
  | consumer_recv =>
    simp only [Sys.step, Except.ok.injEq] at h
    subst h
    obtain ⟨h1, h2⟩ := msgq_recv_effect P msgq
    refine ⟨?_, ?_⟩
    · cases pc <;> simpa [Sys.inv, h1] using hi
    · exact ⟨Or.inl h1, fun hd => ⟨by rw [h1]; exact hd, h2⟩⟩
  | close_drain =>
    simp only [Sys.step] at h
    split at h
    · split at h
      · simp only [Except.ok.injEq] at h
        subst h
        exact ⟨hi, Or.inl rfl, fun hd => ⟨hd, Or.inl rfl⟩⟩
      · rename_i msgq1 hdr
        obtain ⟨h1, h2⟩ := msgq_close_drain_body_effect P msgq msgq1 hdr
        simp only [Except.ok.injEq] at h
        subst h
        refine ⟨?_, ?_⟩
        · cases pc <;> simpa [Sys.inv, h1] using hi
        · exact ⟨Or.inl h1, fun hd => ⟨by rw [h1]; exact hd, Or.inr h2⟩⟩
    · simp only [Except.ok.injEq] at h
      subst h
      exact ⟨hi, Or.inl rfl, fun hd => ⟨hd, Or.inl rfl⟩⟩

theorem Sys.inv_status (s : Sys) (hi : s.inv) :
    s.msgq.receiver_status = MSGQ_STAT_INIT ∨ s.msgq.receiver_status = MSGQ_STAT_ALIVE ∨
      s.msgq.receiver_status = MSGQ_STAT_DEAD := by
  obtain ⟨msgq, pc⟩ := s
  cases pc <;> simp only [Sys.inv] at hi <;> simp [hi]

theorem Sys.trace_head (P : Platform) (s : Sys) (acts : List Action) :
    (Sys.trace P s acts).head? = some s := by
  cases acts with
  | nil => rfl
  | cons a as =>
    simp only [Sys.trace]
    split <;> rfl

theorem Sys.trace_inv (P : Platform) (acts : List Action) :
    ∀ s : Sys, s.inv →
      (∀ t ∈ Sys.trace P s acts, t.inv) ∧
      List.Chain' Sys.lifecycle_step (Sys.trace P s acts) := by
  induction acts with
  | nil =>
    intro s hi
    simp only [Sys.trace, List.mem_singleton, forall_eq, List.chain'_singleton, and_true]
    exact hi
  | cons a as ih =>
    intro s hi
    simp only [Sys.trace]
    cases hstep : s.step P a with
    | error f =>
      simp only [List.mem_singleton, forall_eq, List.chain'_singleton, and_true]
      exact hi
    | ok s1 =>
      obtain ⟨hi1, hrel⟩ := Sys.step_inv P s s1 a hi hstep
      obtain ⟨hall, hchain⟩ := ih s1 hi1
      refine ⟨?_, ?_⟩
      · intro t ht
        simp only [List.mem_cons] at ht
        rcases ht with rfl | ht
        · exact hi
        · exact hall t ht
      · rw [List.chain'_cons']
        refine ⟨?_, hchain⟩
        intro t ht
        rw [Sys.trace_head] at ht
        simp only [Option.mem_def, Option.some.injEq] at ht
        subst ht
        exact hrel

theorem msgq_open_opened (env : OpenEnv) (msgq : msgq_) (h : msgq_open env = .opened msgq) :
    msgq.receiver_status = MSGQ_STAT_INIT ∧ msgq.recvq = [] ∧ msgq.recvs = 0 := by
  unfold msgq_open at h
  simp only [msgq_open_err, msgq_open_err_cond, msgq_open_err_cond_recv,
    msgq_open_err_free_livemutex] at h
  repeat' split at h
  all_goals cases h
  exact ⟨rfl, rfl, rfl⟩

/-- C8.  The life cycle is monotonic.  In every run of the endpoint that
`msgq_open` has created, whatever the receiver receives and whatever the
consumers and `msgq_close` do, `receiver_status` is one of `MSGQ_STAT_INIT`,
`MSGQ_STAT_ALIVE`, `MSGQ_STAT_DEAD` in every state, each step leaves it or
advances it by one, and from `MSGQ_STAT_DEAD` on it stays there and no node is
appended: the queue stays or loses its oldest node. -/
theorem lifecycle_monotone (P : Platform) (env : OpenEnv) (msgq : msgq_) (acts : List Action)
    (hopen : msgq_open env = .opened msgq) :
    (∀ t ∈ Sys.trace P ⟨msgq, .entry⟩ acts,
      t.msgq.receiver_status = MSGQ_STAT_INIT ∨ t.msgq.receiver_status = MSGQ_STAT_ALIVE ∨
        t.msgq.receiver_status = MSGQ_STAT_DEAD) ∧
    List.Chain' Sys.lifecycle_step (Sys.trace P ⟨msgq, .entry⟩ acts) ∧
    List.Chain' (fun s t : Sys => s.msgq.receiver_status ≤ t.msgq.receiver_status)
      (Sys.trace P ⟨msgq, .entry⟩ acts) := by
  have hinit : Sys.inv ⟨msgq, .entry⟩ := (msgq_open_opened env msgq hopen).1
  obtain ⟨hall, hchain⟩ := Sys.trace_inv P acts ⟨msgq, .entry⟩ hinit
  refine ⟨fun t ht => Sys.inv_status t (hall t ht), hchain, ?_⟩
  apply List.Chain'.imp _ hchain
  intro s t h
  rcases h.1 with h1 | h1 <;> omega

theorem lifecycle_monotone_witness :
    ((∀ t ∈ Sys.trace ilp32 ⟨Sample.opened, .entry⟩ Sample.run,
      t.msgq.receiver_status = MSGQ_STAT_INIT ∨ t.msgq.receiver_status = MSGQ_STAT_ALIVE ∨
        t.msgq.receiver_status = MSGQ_STAT_DEAD) ∧
    List.Chain' Sys.lifecycle_step (Sys.trace ilp32 ⟨Sample.opened, .entry⟩ Sample.run) ∧
    List.Chain' (fun s t : Sys => s.msgq.receiver_status ≤ t.msgq.receiver_status)
      (Sys.trace ilp32 ⟨Sample.opened, .entry⟩ Sample.run)) ∧
    (Sys.trace ilp32 ⟨Sample.opened, .entry⟩ Sample.run).map
        (fun t => (t.msgq.receiver_status, t.msgq.recvq.length))
      = [(0, 0), (1, 0), (1, 1), (1, 0), (1, 1), (1, 1), (2, 1), (2, 1), (2, 0), (2, 0)] :=
  ⟨lifecycle_monotone ilp32 Sample.open_env Sample.opened Sample.run (by decide), by decide⟩

/-! ## Waiting for a state of the receiver -/

theorem msgq_wait_loop_done (status rs : Int) (wakes : List StatWake) (k : Nat)
    (h : ¬ rs < status) : msgq_wait_loop status rs wakes k = some (0, rs, k) := by
  unfold msgq_wait_loop
  rw [if_neg h]

theorem msgq_wait_loop_reach (status : Int) (pre : List StatWake) :
    ∀ (rs : Int) (k : Nat) (w : StatWake) (post : List StatWake), rs < status →
      (∀ v ∈ pre, v.ret = 0 ∧ v.receiver_status < status) → w.ret = 0 →
      status ≤ w.receiver_status →
      msgq_wait_loop status rs (pre ++ w :: post) k
        = some (0, w.receiver_status, k + pre.length + 1) := by
  induction pre with
  | nil =>
    intro rs k w post hrs _ hw hreach
    unfold msgq_wait_loop
    simp only [hrs, if_true, List.nil_append, hw, ne_eq, not_true_eq_false, if_false]
    rw [msgq_wait_loop_done status _ post (k + 1) (by omega)]
    simp
  | cons v vs ih =>
    intro rs k w post hrs hpre hw hreach
    have hv := hpre v (List.mem_cons_self _ _)
    unfold msgq_wait_loop
    simp only [hrs, if_true, List.cons_append, hv.1, ne_eq, not_true_eq_false, if_false]
    rw [ih v.receiver_status (k + 1) w post hv.2
      (fun u hu => hpre u (List.mem_cons_of_mem _ hu)) hw hreach]
    simp only [List.length_cons]
    congr 3
    omega

theorem msgq_wait_loop_blocked (status : Int) (wakes : List StatWake) :
    ∀ (rs : Int) (k : Nat), rs < status →
      (∀ v ∈ wakes, v.ret = 0 ∧ v.receiver_status < status) →
      msgq_wait_loop status rs wakes k = none := by
  induction wakes with
  | nil =>
    intro rs k hrs _
    unfold msgq_wait_loop
    simp [hrs]
  | cons v vs ih =>
    intro rs k hrs hall
    have hv := hall v (List.mem_cons_self _ _)
    unfold msgq_wait_loop
    simp only [hrs, if_true, hv.1, ne_eq, not_true_eq_false, if_false]
    exact ih v.receiver_status (k + 1) hv.2 (fun u hu => hall u (List.mem_cons_of_mem _ hu))

theorem msgq_wait_loop_result (status : Int) (wakes : List StatWake) :
    ∀ (rs : Int) (k : Nat) (e : Nat) (v : Int) (n : Nat), (∀ w ∈ wakes, w.ret = 0) →
      msgq_wait_loop status rs wakes k = some (e, v, n) →
      e = 0 ∧ status ≤ v ∧ k ≤ n ∧
        (rs < status → ∃ w ∈ wakes, w.receiver_status = v) := by
  induction wakes with
  | nil =>
    intro rs k e v n _ h
    unfold msgq_wait_loop at h
    by_cases hrs : rs < status
    · simp [hrs] at h
    · simp only [hrs, if_false, Option.some.injEq, Prod.mk.injEq] at h
      obtain ⟨rfl, rfl, rfl⟩ := h
      exact ⟨rfl, by omega, le_refl _, fun h => absurd h hrs⟩
  | cons w ws ih =>
    intro rs k e v n hall h
    have hw := hall w (List.mem_cons_self _ _)
    unfold msgq_wait_loop at h
    by_cases hrs : rs < status
    · simp only [hrs, if_true, hw, ne_eq, not_true_eq_false, if_false] at h
      obtain ⟨h1, h2, h3, h4⟩ := ih w.receiver_status (k + 1) e v n
        (fun u hu => hall u (List.mem_cons_of_mem _ hu)) h
      refine ⟨h1, h2, by omega, fun _ => ?_⟩
      by_cases hws : w.receiver_status < status
      · obtain ⟨u, hu, huv⟩ := h4 hws
        exact ⟨u, List.mem_cons_of_mem _ hu, huv⟩
      · rw [msgq_wait_loop_done status _ ws (k + 1) hws] at h
        simp only [Option.some.injEq, Prod.mk.injEq] at h
        exact ⟨w, List.mem_cons_self _ _, h.2.1⟩
    · simp only [hrs, if_false, Option.some.injEq, Prod.mk.injEq] at h
      obtain ⟨rfl, rfl, rfl⟩ := h
      exact ⟨rfl, by omega, le_refl _, fun h => absurd h hrs⟩

/-- C9.  For a target among `MSGQ_STAT_NONE`, `MSGQ_STAT_INIT`,
`MSGQ_STAT_ALIVE`, `MSGQ_STAT_DEAD`: `msgq_wait` returns the current
`receiver_status` without a condition wait when the target is
`MSGQ_STAT_NONE` or not above the current state.  Otherwise, while the
condition waits succeed, it returns at the first wake that finds the state at
or above the target, with the state found at that wake; it stays blocked as
long as no wake finds that; and whatever it returns is a state found at a
wake and is at or above the target. -/
theorem msgq_wait_spec (msgq : msgq_) (status : Int) (errno : Nat) (wakes : List StatWake)
    (hlo : MSGQ_STAT_NONE ≤ status) (hhi : status ≤ MSGQ_STAT_DEAD) :
    ((status = MSGQ_STAT_NONE ∨ status ≤ msgq.receiver_status) →
      msgq_wait msgq status errno wakes = .returned msgq.receiver_status errno 0) ∧
    (status ≠ MSGQ_STAT_NONE → msgq.receiver_status < status →
      (∀ pre w post, wakes = pre ++ w :: post →
        (∀ v ∈ pre, v.ret = 0 ∧ v.receiver_status < status) → w.ret = 0 →
        status ≤ w.receiver_status →
        msgq_wait msgq status errno wakes = .returned w.receiver_status errno (pre.length + 1)) ∧
      ((∀ v ∈ wakes, v.ret = 0 ∧ v.receiver_status < status) →
        msgq_wait msgq status errno wakes = .blocked wakes.length) ∧
      ((∀ w ∈ wakes, w.ret = 0) → ∀ v e k,
        msgq_wait msgq status errno wakes = .returned v e k →
        status ≤ v ∧ e = errno ∧ ∃ w ∈ wakes, w.receiver_status = v)) := by
  have hrange : ¬ ¬ (status ≥ MSGQ_STAT_NONE ∧ status ≤ MSGQ_STAT_DEAD) :=
    not_not.mpr ⟨hlo, hhi⟩
  constructor
  · intro h
    unfold msgq_wait
    rw [if_neg hrange]
    by_cases hn : status = MSGQ_STAT_NONE
    · rw [if_pos hn]
    · rw [if_neg hn]
      rcases h with h | h
      · exact absurd h hn
      · rw [if_pos h]
  · intro hn hlt
    have hnle : ¬ status ≤ msgq.receiver_status := by omega
    have hunf : msgq_wait msgq status errno wakes =
        match msgq_wait_loop status msgq.receiver_status wakes 0 with
        | none => .blocked wakes.length
        | some (saved_errno, st, k) =>
          if saved_errno ≠ 0 then .returned (-1) saved_errno k
          else .returned st errno k := by
      unfold msgq_wait
      rw [if_neg hrange, if_neg hn, if_neg hnle]
    refine ⟨?_, ?_, ?_⟩
    · intro pre w post hw hpre hret hreach
      rw [hunf, hw, msgq_wait_loop_reach status pre _ 0 w post hlt hpre hret hreach]
      simp
    · intro hall
      rw [hunf, msgq_wait_loop_blocked status wakes _ 0 hlt hall]
    · intro hall v e k hres
      rw [hunf] at hres
      cases hloop : msgq_wait_loop status msgq.receiver_status wakes 0 with
      | none => rw [hloop] at hres; cases hres
      | some x =>
        obtain ⟨e1, v1, n1⟩ := x
        obtain ⟨h1, h2, _, h4⟩ :=
          msgq_wait_loop_result status wakes _ 0 e1 v1 n1 hall hloop
        rw [hloop] at hres
        subst h1
        simp only [ne_eq, not_true_eq_false, if_false, WaitResult.returned.injEq] at hres
        obtain ⟨rfl, rfl, rfl⟩ := hres
        exact ⟨h2, rfl, h4 hlt⟩

theorem msgq_wait_spec_witness :
    msgq_wait Sample.opened MSGQ_STAT_ALIVE 0 [⟨0, 0⟩, ⟨0, 1⟩, ⟨0, 2⟩] = .returned 1 0 2 ∧
    msgq_wait Sample.opened MSGQ_STAT_NONE 0 [⟨0, 0⟩, ⟨0, 1⟩, ⟨0, 2⟩] = .returned 0 0 0 :=
  have h := msgq_wait_spec Sample.opened MSGQ_STAT_ALIVE 0 [⟨0, 0⟩, ⟨0, 1⟩, ⟨0, 2⟩]
    (by decide) (by decide)
  have h0 := msgq_wait_spec Sample.opened MSGQ_STAT_NONE 0 [⟨0, 0⟩, ⟨0, 1⟩, ⟨0, 2⟩]
    (by decide) (by decide)
  ⟨(h.2 (by decide) (by decide)).1 [⟨0, 0⟩] ⟨0, 1⟩ [⟨0, 2⟩] rfl (by decide) rfl (by decide),
   h0.1 (Or.inl rfl)⟩

/-! ## Duplicate of a packet -/

/-- C10.  For a packet in memory with `size ≥ 1`, `msgq_copy_packet` returns,
when `malloc` succeeds, a copy with the same `size` member and the same `size`
payload bytes.  If the last payload byte is not NUL, the storage of the copy
is one byte longer than the payload and holds NUL at `data[size]`; if it is
NUL, the storage is exactly the payload.  (`NULL` is returned when `malloc`
fails.) -/
theorem msgq_copy_packet_spec (P : Platform) (packet : msgq_packet) (junk : Nat → Byte)
    (hres : packet.resident P) (h1 : 1 ≤ packet.size) :
    msgq_copy_packet P none packet = .ok none ∧
    ∃ q, msgq_copy_packet P (some junk) packet = .ok (some q) ∧
      q.size = packet.size ∧ q.payload = packet.payload ∧
      q.payload.length = packet.size ∧
      (packet.data.get? (packet.size - 1) ≠ some 0 →
        q.data.length = packet.size + 1 ∧ q.data.get? q.size = some 0) ∧
      (packet.data.get? (packet.size - 1) = some 0 → q.data.length = packet.size) := by
  have hpl := payload_length packet hres.2.1
  constructor
  · obtain ⟨hsb, hlen, hw⟩ := hres
    have hlast := last_index P.sizeBits packet.size h1 hsb
    have hget : ∃ c, packet.data.get? (packet.size - 1) = some c := by
      have : packet.size - 1 < packet.data.length := by omega
      exact ⟨packet.data.get ⟨_, this⟩, List.get?_eq_get this⟩
    obtain ⟨c, hc⟩ := hget
    unfold msgq_copy_packet
    simp only [hlast, hc]
  · refine ⟨_, msgq_copy_packet_eq P packet junk hres h1, rfl, ?_, ?_, ?_, ?_⟩
    · show List.take packet.size (packet.payload ++ _) = packet.payload
      rw [List.take_append_of_le_length (by omega), List.take_of_length_le (by omega)]
    · show (List.take packet.size (packet.payload ++ _)).length = packet.size
      rw [List.take_append_of_le_length (by omega), List.take_of_length_le (by omega)]
      exact hpl
    · intro hne
      simp only [hne, if_false]
      constructor
      · rw [List.length_append, hpl]; rfl
      · show (packet.payload ++ [(0 : Byte)]).get? packet.size = some (0 : Byte)
        rw [List.get?_eq_getElem?, List.getElem?_append_right (by omega), hpl]
        simp
    · intro he
      simp only [he, if_true, List.append_nil]
      exact hpl

theorem msgq_copy_packet_spec_witness :
    msgq_copy_packet ilp32 none ⟨2, none, [104, 105, 9, 9]⟩ = .ok none ∧
    ∃ q, msgq_copy_packet ilp32 (some Sample.junk) ⟨2, none, [104, 105, 9, 9]⟩ = .ok (some q) ∧
      q.size = 2 ∧ q.payload = [104, 105] ∧ q.payload.length = 2 ∧
      (([104, 105, 9, 9] : List Byte).get? (2 - 1) ≠ some 0 →
        q.data.length = 2 + 1 ∧ q.data.get? q.size = some 0) ∧
      (([104, 105, 9, 9] : List Byte).get? (2 - 1) = some 0 → q.data.length = 2) :=
  msgq_copy_packet_spec ilp32 ⟨2, none, [104, 105, 9, 9]⟩ Sample.junk (by decide) (by decide)

/-! ## Failures of msgq_open -/

/-- When no initialisation of a condition variable fails at the point where
it is reached, `msgq_open` opens the endpoint or returns `NULL`; it does not
call `abort()`. -/
theorem msgq_open_failed_of_conds (env : OpenEnv)
    (hc : env.malloc_msgq = true → env.malloc_pkbuf = true → env.mutex_init = 0 →
      env.recv_cond_init = 0 ∧ env.stat_cond_init = 0) :
    (∃ msgq, msgq_open env = .opened msgq) ∨ ∃ errno done, msgq_open env = .failed errno done := by
  unfold msgq_open
  by_cases h1 : env.malloc_msgq = true
  · by_cases h2 : env.malloc_pkbuf = true
    · by_cases h3 : env.mutex_init = 0
      · obtain ⟨h4, h5⟩ := hc h1 h2 h3
        simp only [h1, h2, h3, h4, h5, not_true_eq_false, if_false, ne_eq]
        cases env.get_listener with
        | none =>
          right
          exact ⟨_, _, rfl⟩
        | some fa =>
          obtain ⟨fd, address⟩ := fa
          by_cases h6 : env.start_receiver = true
          · left; simp [h6]
          · right
            simp only [h6, not_false_eq_true, if_true]
            exact ⟨_, _, rfl⟩
      · right
        simp only [h1, h2, h3, not_true_eq_false, if_false, ne_eq, not_false_eq_true, if_true]
        exact ⟨_, _, rfl⟩
    · right; simp [h1, h2]
  · right; simp [h1]

/-- When the endpoint, the buffer and the mutex are set up and the
initialisation of one of the two condition variables fails, `msgq_open` calls
`abort()`: the labels `err_cond` and `err_cond_recv` run into `MSGQ_UNLOCK`
before the mutex was locked. -/
theorem msgq_open_aborts_of_cond_failure (env : OpenEnv) (h1 : env.malloc_msgq = true)
    (h2 : env.malloc_pkbuf = true) (h3 : env.mutex_init = 0)
    (hc : env.recv_cond_init ≠ 0 ∨ env.stat_cond_init ≠ 0) :
    msgq_open env = .aborted (if env.recv_cond_init ≠ 0 then [] else [.cond_destroy_recv]) := by
  unfold msgq_open
  simp only [h1, h2, h3, not_true_eq_false, if_false, ne_eq]
  by_cases h4 : env.recv_cond_init = 0
  · have h5 : env.stat_cond_init ≠ 0 := by
      rcases hc with h | h
      · exact absurd h4 h
      · exact h
    simp [h4, h5, msgq_open_err_cond, msgq_open_err_cond_recv]
  · simp [h4, msgq_open_err_cond_recv]

/-- C11 (evaluation at the failing input).  With the endpoint, the buffer and
the mutex set up, a failure of `pthread_cond_init` for `recv_cond` makes
`msgq_open` call `abort()` with nothing released, and a failure for
`stat_cond` makes it call `abort()` after destroying `recv_cond` only: both
reach `MSGQ_UNLOCK` on the error-checking mutex that is not locked.  A failure
of `msgq_get_listener`, where the mutex is locked, is unwound and returns
`NULL`. -/
theorem msgq_open_cond_failure_aborts :
    msgq_open Sample.open_env_recv_cond = .aborted [] ∧
    msgq_open Sample.open_env_stat_cond = .aborted [.cond_destroy_recv] ∧
    msgq_open { Sample.open_env with get_listener := none, errno := 98 } =
      .failed 98 [.cond_destroy_stat, .cond_destroy_recv, .unlock, .mutex_destroy,
        .free_pkbuf, .free_msgq] ∧
    msgq_open { Sample.open_env with start_receiver := false, errno := 11 } =
      .failed 11 [.cond_destroy_stat, .cond_destroy_recv, .unlock, .close_fd, .mutex_destroy,
        .free_pkbuf, .free_msgq] := by
  refine ⟨by decide, by decide, by decide, by decide⟩

/-! ## The pending count -/

theorem counted_push (P : Platform) (msgq : msgq_) (np : msgq_node) (h : msgq.counted P) :
    msgq_.counted P { msgq with recvq := edque_push_back msgq.recvq np,
                                recvs := recvs_inc P msgq.recvs } := by
  unfold msgq_.counted at h ⊢
  simp only [edque_push_back, recvs_inc, List.length_append, List.length_singleton]
  rw [h, Nat.add_mod, Nat.mod_mod, ← Nat.add_mod]

theorem counted_pop (P : Platform) (msgq : msgq_) (np : msgq_node) (q : List msgq_node)
    (hq : msgq.recvq = np :: q) (h : msgq.counted P) :
    msgq_.counted P { msgq with recvq := q, recvs := recvs_dec P msgq.recvs } := by
  unfold msgq_.counted at h ⊢
  have hpos : 0 < 2 ^ P.wordBits := by positivity
  simp only [recvs_dec]
  rw [h, hq, List.length_cons]
  have hlt := Nat.mod_lt (q.length + 1) hpos
  have e1 : (q.length + 1) % 2 ^ P.wordBits + 2 ^ P.wordBits - 1
      = ((q.length + 1) % 2 ^ P.wordBits + (2 ^ P.wordBits - 1)) := by omega
  rw [e1, Nat.add_mod, Nat.mod_mod, ← Nat.add_mod]
  have e2 : q.length + 1 + (2 ^ P.wordBits - 1) = q.length + 2 ^ P.wordBits := by omega
  rw [e2, Nat.add_mod_right]

theorem receiver_body_counted (P : Platform) (msgq msgq1 : msgq_) (r : RecvFrom)
    (m_node m_packet : Malloc) (b : Branch)
    (h : msgq_receiver_body P msgq r m_node m_packet = .ok (b, msgq1))
    (hc : msgq.counted P) : msgq1.counted P := by
  unfold msgq_receiver_body at h
  simp only at h
  split at h
  · split at h <;> (injection h with h; injection h with _ h; rw [← h]; exact hc)
  · split at h
    · injection h with h; injection h with _ h; rw [← h]; exact hc
    · split at h
      · cases h
      · injection h with h; injection h with _ h; rw [← h]; exact hc
      · split at h
        · cases h
        · injection h with h; injection h with _ h; rw [← h]; exact hc
        · rename_i np _
          injection h with h; injection h with _ h; rw [← h]
          exact counted_push P msgq np hc

theorem msgq_recv_counted (P : Platform) (msgq : msgq_) (hc : msgq.counted P) :
    (msgq_recv P msgq).2.counted P := by
  cases hq : msgq.recvq with
  | nil => rw [msgq_recv_nil P msgq hq]; exact hc
  | cons np q => rw [msgq_recv_cons P msgq np q hq]; exact counted_pop P msgq np q hq hc

theorem msgq_close_drain_body_counted (P : Platform) (msgq msgq1 : msgq_)
    (h : msgq_close_drain_body P msgq = some msgq1) (hc : msgq.counted P) :
    msgq1.counted P := by
  unfold msgq_close_drain_body at h
  cases hq : msgq.recvq with
  | nil => rw [hq] at h; simp [edque_pop_front] at h
  | cons np q =>
    rw [hq] at h
    simp only [edque_pop_front, Option.some.injEq] at h
    rw [← h]
    exact counted_pop P msgq np q hq hc

theorem Wake.apply_counted (P : Platform) (w : Wake) (msgq : msgq_) (hw : w.counted P) :
    (w.apply msgq).counted P := hw

/-- The loop of `msgq_recv_timedwait` keeps the count in agreement with the
queue when the other threads do. -/
theorem msgq_recv_timedwait_loop_counted (P : Platform) (wakes : List Wake) :
    ∀ (msgq : msgq_) (abstime : Option timespec) (errno k : Nat), msgq.counted P →
      (∀ w ∈ wakes, w.counted P) →
      (msgq_recv_timedwait_loop P msgq abstime errno wakes k).msgq.counted P := by
  induction wakes with
  | nil =>
    intro msgq abstime errno k hc _
    cases hq : msgq.recvq with
    | cons np q =>
      rw [msgq_recv_timedwait_loop_cons P msgq np q abstime errno [] k hq]
      exact counted_pop P msgq np q hq hc
    | nil =>
      unfold msgq_recv_timedwait_loop
      rw [hq]
      simp only [edque_pop_front]
      split <;> exact hc
  | cons w ws ih =>
    intro msgq abstime errno k hc hall
    have hw := hall w (List.mem_cons_self _ _)
    have hws : ∀ v ∈ ws, v.counted P := fun v hv => hall v (List.mem_cons_of_mem _ hv)
    cases hq : msgq.recvq with
    | cons np q =>
      rw [msgq_recv_timedwait_loop_cons P msgq np q abstime errno _ k hq]
      exact counted_pop P msgq np q hq hc
    | nil =>
      unfold msgq_recv_timedwait_loop
      rw [hq]
      simp only [edque_pop_front]
      split
      · exact hc
      · split
        · exact Wake.apply_counted P w msgq hw
        · cases abstime with
          | none => exact ih (w.apply msgq) none errno (k + 1) (Wake.apply_counted P w msgq hw) hws
          | some t =>
            simp only
            split
            · exact Wake.apply_counted P w msgq hw
            · exact ih (w.apply msgq) _ errno (k + 1) (Wake.apply_counted P w msgq hw) hws

theorem Sys.step_counted (P : Platform) (s t : Sys) (a : Action) (hc : s.msgq.counted P)
    (h : s.step P a = .ok t) : t.msgq.counted P := by
  obtain ⟨msgq, pc⟩ := s
  cases a with
  | receiver r m_node m_packet =>
    cases pc with
    | entry =>
      simp only [Sys.step, Except.ok.injEq] at h
      subst h
      exact hc
    | loop =>
      simp only [Sys.step] at h
      split at h
      · cases h
      · rename_i b msgq1 hb
        simp only [Except.ok.injEq] at h
        subst h
        exact receiver_body_counted P msgq msgq1 r m_node m_packet b hb hc
    | leaving =>
      simp only [Sys.step, Except.ok.injEq] at h
      subst h
      exact hc
    | exited =>
      simp only [Sys.step, Except.ok.injEq] at h
      subst h
      exact hc
  | consumer_recv =>
    simp only [Sys.step, Except.ok.injEq] at h
    subst h
    exact msgq_recv_counted P msgq hc
  | close_drain =>
    simp only [Sys.step] at h
    split at h
    · split at h
      · simp only [Except.ok.injEq] at h
        subst h
        exact hc
      · rename_i msgq1 hdr
        simp only [Except.ok.injEq] at h
        subst h
        exact msgq_close_drain_body_counted P msgq msgq1 hdr hc
    · simp only [Except.ok.injEq] at h
      subst h
      exact hc

theorem Sys.trace_counted (P : Platform) (acts : List Action) :
    ∀ s : Sys, s.msgq.counted P → ∀ t ∈ Sys.trace P s acts, t.msgq.counted P := by
  induction acts with
  | nil =>
    intro s hc t ht
    simp only [Sys.trace, List.mem_singleton] at ht
    subst ht
    exact hc
  | cons a as ih =>
    intro s hc t ht
    simp only [Sys.trace] at ht
    cases hstep : s.step P a with
    | error f =>
      rw [hstep] at ht
      simp only [List.mem_singleton] at ht
      subst ht
      exact hc
    | ok s1 =>
      rw [hstep] at ht
      simp only [List.mem_cons] at ht
      rcases ht with rfl | ht
      · exact hc
      · exact ih s1 (Sys.step_counted P s s1 a hc hstep) t ht

theorem counted_pos (P : Platform) (msgq : msgq_) (hc : msgq.counted P) (hpos : 0 < msgq.recvs) :
    ∃ np q, msgq.recvq = np :: q ∧ (msgq_recv P msgq).1 = some np.packet := by
  cases hq : msgq.recvq with
  | nil =>
    unfold msgq_.counted at hc
    rw [hq] at hc
    simp at hc
    omega
  | cons np q =>
    exact ⟨np, q, rfl, by rw [msgq_recv_cons P msgq np q hq]⟩

/-- C12.  Invariant of the pending count.  From the state that `msgq_open`
builds, in every state of every run of the endpoint (passes of the receiver
loop, `msgq_recv`, the pop of `msgq_recv_timedwait`, passes of the draining
loop of `msgq_close`), `recvs` is the number of nodes in `recvq` as a `size_t`,
so equal to it for every queue that fits in memory, and a caller that sees
`recvs > 0` gets the packet of the oldest node from the next pop; the whole
of `msgq_recv_timedwait`, waits included, keeps the agreement when the other
threads do. -/
theorem pending_count_invariant (P : Platform) (env : OpenEnv) (msgq : msgq_)
    (acts : List Action) (hopen : msgq_open env = .opened msgq) :
    (∀ t ∈ Sys.trace P ⟨msgq, .entry⟩ acts,
      t.msgq.counted P ∧
      (t.msgq.recvq.length < 2 ^ P.wordBits → t.msgq.recvs = t.msgq.recvq.length) ∧
      (0 < t.msgq.recvs →
        ∃ np q, t.msgq.recvq = np :: q ∧ (msgq_recv P t.msgq).1 = some np.packet)) ∧
    (∀ (m : msgq_) (abstime : Option timespec) (errno : Nat) (wakes : List Wake),
      m.counted P → (∀ w ∈ wakes, w.counted P) →
      (msgq_recv_timedwait P m abstime errno wakes).msgq.counted P) := by
  obtain ⟨_, hq, hr⟩ := msgq_open_opened env msgq hopen
  have hinit : msgq_.counted P msgq := by
    unfold msgq_.counted
    rw [hq, hr]
    simp
  refine ⟨?_, ?_⟩
  · intro t ht
    have hc := Sys.trace_counted P acts ⟨msgq, .entry⟩ hinit t ht
    refine ⟨hc, ?_, counted_pos P t.msgq hc⟩
    intro hlt
    have := hc
    unfold msgq_.counted at this
    rw [this, Nat.mod_eq_of_lt hlt]
  · intro m abstime errno wakes hm hw
    exact msgq_recv_timedwait_loop_counted P wakes m abstime errno 0 hm hw

theorem pending_count_invariant_witness :
    ((∀ t ∈ Sys.trace ilp32 ⟨Sample.opened, .entry⟩ Sample.run,
      t.msgq.counted ilp32 ∧
      (t.msgq.recvq.length < 2 ^ ilp32.wordBits → t.msgq.recvs = t.msgq.recvq.length) ∧
      (0 < t.msgq.recvs →
        ∃ np q, t.msgq.recvq = np :: q ∧ (msgq_recv ilp32 t.msgq).1 = some np.packet)) ∧
    (∀ (m : msgq_) (abstime : Option timespec) (errno : Nat) (wakes : List Wake),
      m.counted ilp32 → (∀ w ∈ wakes, w.counted ilp32) →
      (msgq_recv_timedwait ilp32 m abstime errno wakes).msgq.counted ilp32)) ∧
    (Sys.trace ilp32 ⟨Sample.opened, .entry⟩ Sample.run).map
        (fun t => (t.msgq.recvs, t.msgq.recvq.length))
      = [(0, 0), (0, 0), (1, 1), (0, 0), (1, 1), (1, 1), (1, 1), (1, 1), (0, 0), (0, 0)] :=
  ⟨pending_count_invariant ilp32 Sample.open_env Sample.opened Sample.run (by decide),
   by decide⟩

/-! ## Deadlines -/

theorem toSigned_small (w : Nat) (x : Int) (hw : 32 ≤ w) (h1 : -2147483648 ≤ x)
    (h2 : x < 2147483648) : toSigned w x = x := by
  have hp : (2147483648 : Int) ≤ 2 ^ (w - 1) := by
    have : (2 : Int) ^ 31 ≤ 2 ^ (w - 1) := pow_le_pow_right₀ (by norm_num) (by omega)
    norm_num at this
    exact this
  exact toSigned_of_range w x (by omega) (by omega) (by omega)

/-- The value of `timespec_subtract` on normalised arguments, case by case: at
most one carry of a second is made, and it is left in `*y`. -/
theorem timespec_subtract_eq (P : Platform) (hP : P.time_wf) (x y : timespec)
    (hx : x.normalised) (hy : y.normalised) :
    timespec_subtract P x y =
      if x.tv_nsec < y.tv_nsec then
        (if x.tv_sec < toSigned P.timeBits (y.tv_sec + 1) then 1 else 0,
         { tv_sec := toSigned P.timeBits (x.tv_sec - toSigned P.timeBits (y.tv_sec + 1)),
           tv_nsec := x.tv_nsec - (y.tv_nsec - 1000000000) },
         { tv_sec := toSigned P.timeBits (y.tv_sec + 1), tv_nsec := y.tv_nsec - 1000000000 })
      else
        (if x.tv_sec < y.tv_sec then 1 else 0,
         { tv_sec := toSigned P.timeBits (x.tv_sec - y.tv_sec),
           tv_nsec := x.tv_nsec - y.tv_nsec }, y) := by
  obtain ⟨hi, hl, ht⟩ := hP
  obtain ⟨hx0, hx1⟩ := hx
  obtain ⟨hy0, hy1⟩ := hy
  unfold timespec_subtract
  by_cases h : x.tv_nsec < y.tv_nsec
  · have e1 : toSigned P.longBits (y.tv_nsec - x.tv_nsec) = y.tv_nsec - x.tv_nsec :=
      toSigned_small _ _ hl (by omega) (by omega)
    have hd : (y.tv_nsec - x.tv_nsec).tdiv 1000000000 = 0 :=
      Int.tdiv_eq_zero_of_lt (by omega) (by omega)
    have e2 : toSigned P.longBits (0 + 1) = 1 := toSigned_small _ _ hl (by omega) (by omega)
    have e3 : toSigned P.intBits 1 = 1 := toSigned_small _ _ hi (by omega) (by omega)
    have e4 : toSigned P.intBits (1000000000 * 1) = 1000000000 :=
      toSigned_small _ _ hi (by omega) (by omega)
    have e5 : toSigned P.longBits (y.tv_nsec - 1000000000) = y.tv_nsec - 1000000000 :=
      toSigned_small _ _ hl (by omega) (by omega)
    have e6 : toSigned P.longBits (x.tv_nsec - (y.tv_nsec - 1000000000))
        = x.tv_nsec - (y.tv_nsec - 1000000000) :=
      toSigned_small _ _ hl (by omega) (by omega)
    have h2 : ¬ (x.tv_nsec - (y.tv_nsec - 1000000000) > 1000000000) := by omega
    simp only [h, if_true, e1, hd, e2, e3, e4, e5, e6, h2, if_false]
  · have e6 : toSigned P.longBits (x.tv_nsec - y.tv_nsec) = x.tv_nsec - y.tv_nsec :=
      toSigned_small _ _ hl (by omega) (by omega)
    have h2 : ¬ (x.tv_nsec - y.tv_nsec > 1000000000) := by omega
    simp only [h, if_false, e6, h2]

/-- The value of `timespec_subtract` on normalised arguments whose seconds
stay in the range of `time_t`. -/
theorem timespec_subtract_eq_of_fits (P : Platform) (hP : P.time_wf) (x y : timespec)
    (hx : x.normalised) (hy : y.normalised) (hf : timespec_subtract_fits P x y) :
    timespec_subtract P x y =
      if x.tv_nsec < y.tv_nsec then
        (if x.tv_sec < y.tv_sec + 1 then 1 else 0,
         { tv_sec := x.tv_sec - (y.tv_sec + 1),
           tv_nsec := x.tv_nsec - (y.tv_nsec - 1000000000) },
         { tv_sec := y.tv_sec + 1, tv_nsec := y.tv_nsec - 1000000000 })
      else
        (if x.tv_sec < y.tv_sec then 1 else 0,
         { tv_sec := x.tv_sec - y.tv_sec, tv_nsec := x.tv_nsec - y.tv_nsec }, y) := by
  rw [timespec_subtract_eq P hP x y hx hy]
  obtain ⟨_, _, ht⟩ := hP
  obtain ⟨f1, f2, f3, f4⟩ := hf
  have e1 : toSigned P.timeBits (y.tv_sec + 1) = y.tv_sec + 1 :=
    toSigned_of_range _ _ ht f1 f2
  have e2 : toSigned P.timeBits (x.tv_sec - (y.tv_sec + 1)) = x.tv_sec - (y.tv_sec + 1) :=
    toSigned_of_range _ _ ht (by omega) (by omega)
  have e3 : toSigned P.timeBits (x.tv_sec - y.tv_sec) = x.tv_sec - y.tv_sec :=
    toSigned_of_range _ _ ht (by omega) (by omega)
  rw [e1, e2, e3]

/-- One pass of the loop of `msgq_recv_timedwait` with a deadline, on an empty
queue of a live endpoint, when the wait returns 0. -/
theorem msgq_recv_timedwait_loop_wake (P : Platform) (msgq : msgq_) (t : timespec)
    (errno : Nat) (w : Wake) (ws : List Wake) (k : Nat) (hq : msgq.recvq = [])
    (hd : msgq.receiver_status ≠ MSGQ_STAT_DEAD) (hret : w.ret = 0) :
    msgq_recv_timedwait_loop P msgq (some t) errno (w :: ws) k =
      if (timespec_subtract P w.now t).1 = 0 then
        { blocked := false, ret := none, errno := errno, msgq := w.apply msgq,
          abstime := some (timespec_subtract P w.now t).2.2, waits := k + 1 }
      else
        msgq_recv_timedwait_loop P (w.apply msgq) (some (timespec_subtract P w.now t).2.2)
          errno ws (k + 1) := by
  conv_lhs => unfold msgq_recv_timedwait_loop
  rw [hq]
  simp only [edque_pop_front, hd, if_false, hret, ne_eq, not_true_eq_false]

/-- The value that `timespec_subtract` returns on normalised arguments whose
seconds stay in the range of `time_t`. -/
theorem timespec_subtract_ret (P : Platform) (hP : P.time_wf) (x y : timespec)
    (hx : x.normalised) (hy : y.normalised) (hf : timespec_subtract_fits P x y) :
    ((timespec_subtract P x y).1 = 1 ↔ x.nanos < y.nanos) ∧
    ((timespec_subtract P x y).1 = 0 ↔ y.nanos ≤ x.nanos) := by
  have heq := timespec_subtract_eq_of_fits P hP x y hx hy hf
  obtain ⟨hx0, hx1⟩ := hx
  obtain ⟨hy0, hy1⟩ := hy
  have h1 : (timespec_subtract P x y).1 = 1 ↔ x.nanos < y.nanos := by
    rw [heq]
    unfold timespec.nanos
    by_cases h : x.tv_nsec < y.tv_nsec
    · simp only [h, if_true]
      by_cases hs : x.tv_sec < y.tv_sec + 1
      · simp only [hs, if_true, true_iff]; omega
      · simp only [hs, if_false, zero_ne_one, false_iff]; omega
    · simp only [h, if_false]
      by_cases hs : x.tv_sec < y.tv_sec
      · simp only [hs, if_true, true_iff]; omega
      · simp only [hs, if_false, zero_ne_one, false_iff]; omega
  refine ⟨h1, ?_⟩
  have hv : (timespec_subtract P x y).1 = 1 ∨ (timespec_subtract P x y).1 = 0 := by
    rw [heq]
    by_cases h : x.tv_nsec < y.tv_nsec
    · simp only [h, if_true]; split <;> simp
    · simp only [h, if_false]; split <;> simp
  constructor
  · intro hz
    by_contra hcon
    have := h1.mpr (by omega)
    omega
  · intro hle
    rcases hv with hv | hv
    · have := h1.mp hv
      omega
    · exact hv

/-- After a wait that returned 0 with the clock at or past the deadline,
`msgq_recv_timedwait` returns `NULL` whatever the queue holds: the queue as the
wait handed it back is what the call leaves, nodes included, and `errno` is
not set. -/
theorem msgq_recv_timedwait_deadline_first (P : Platform) (hP : P.time_wf) (msgq : msgq_)
    (t : timespec) (errno : Nat) (w : Wake) (ws : List Wake) (hq : msgq.recvq = [])
    (hd : msgq.receiver_status ≠ MSGQ_STAT_DEAD) (hret : w.ret = 0)
    (hn : w.now.normalised) (ht : t.normalised) (hf : timespec_subtract_fits P w.now t)
    (hpast : t.nanos ≤ w.now.nanos) :
    (msgq_recv_timedwait P msgq (some t) errno (w :: ws)).ret = none ∧
    (msgq_recv_timedwait P msgq (some t) errno (w :: ws)).blocked = false ∧
    (msgq_recv_timedwait P msgq (some t) errno (w :: ws)).errno = errno ∧
    (msgq_recv_timedwait P msgq (some t) errno (w :: ws)).msgq.recvq = w.recvq := by
  have hz := (timespec_subtract_ret P hP w.now t hn ht hf).2.mpr hpast
  unfold msgq_recv_timedwait
  rw [msgq_recv_timedwait_loop_wake P msgq t errno w ws 0 hq hd hret, if_pos hz]
  exact ⟨rfl, rfl, rfl, rfl⟩

/-- C13 (evaluation at the failing input).  On the empty queue of a live
endpoint with deadline 4 s: the wait returns 0 at 5 s after the receiver
appended a node, and `msgq_recv_timedwait` returns `NULL` with the node still
in the queue and `errno` untouched; the same when the wait reports
`ETIMEDOUT` with the node already queued.  With deadline 6 s the same wake
makes it return the packet of the node. -/
theorem timedwait_gives_up_with_node_queued :
    msgq_recv_timedwait ilp32 Sample.endpoint (some ⟨4, 0⟩) 0 [Sample.wake_node] =
      { blocked := false, ret := none, errno := 0,
        msgq := { Sample.endpoint with recvq := [Sample.node_hi], recvs := 1 },
        abstime := some ⟨4, 0⟩, waits := 1 } ∧
    msgq_recv_timedwait ilp32 Sample.endpoint (some ⟨4, 0⟩) 0
        [{ Sample.wake_node with ret := ETIMEDOUT }] =
      { blocked := false, ret := none, errno := ETIMEDOUT,
        msgq := { Sample.endpoint with recvq := [Sample.node_hi], recvs := 1 },
        abstime := some ⟨4, 0⟩, waits := 1 } ∧
    msgq_recv_timedwait ilp32 Sample.endpoint (some ⟨6, 0⟩) 0 [Sample.wake_node] =
      { blocked := false, ret := some Sample.node_hi.packet, errno := 0,
        msgq := { Sample.endpoint with recvq := [], recvs := 0 },
        abstime := some ⟨6, 0⟩, waits := 1 } := by
  refine ⟨by decide, by decide, by decide⟩

/-- What `timespec_subtract` leaves in `*y` for normalised arguments: `y`
itself when `x.tv_nsec >= y.tv_nsec`, and otherwise `y` with one second
carried, whose `tv_nsec` is negative. -/
theorem timespec_subtract_deadline (P : Platform) (hP : P.time_wf) (x y : timespec)
    (hx : x.normalised) (hy : y.normalised) :
    (¬ x.tv_nsec < y.tv_nsec → (timespec_subtract P x y).2.2 = y) ∧
    (x.tv_nsec < y.tv_nsec →
      (timespec_subtract P x y).2.2 =
        { tv_sec := toSigned P.timeBits (y.tv_sec + 1), tv_nsec := y.tv_nsec - 1000000000 } ∧
      (timespec_subtract P x y).2.2 ≠ y ∧
      (timespec_subtract P x y).2.2.tv_nsec < 0 ∧
      ¬ (timespec_subtract P x y).2.2.normalised) := by
  have heq := timespec_subtract_eq P hP x y hx hy
  obtain ⟨hy0, hy1⟩ := hy
  constructor
  · intro h
    rw [heq, if_neg h]
  · intro h
    rw [heq, if_pos h]
    refine ⟨rfl, ?_, ?_, ?_⟩
    · intro hcon
      have := congrArg timespec.tv_nsec hcon
      simp at this
    · show y.tv_nsec - 1000000000 < 0
      omega
    · intro hn
      have : (0 : Int) ≤ y.tv_nsec - 1000000000 := hn.1
      omega

/-- C16 (evaluation at the failing input).  With the clock at 5 s and the
caller's deadline at 6.5 s, both normalised, `timespec_subtract` carries a
second on the deadline object: it leaves 7 s and -500000000 ns in it.  After a
spurious wake at 5 s, `msgq_recv_timedwait` is therefore back in the
condition wait with a deadline object that is no longer the caller's and
whose `tv_nsec` is negative. -/
theorem timedwait_rewrites_deadline :
    (⟨5, 0⟩ : timespec).normalised ∧ (⟨6, 500000000⟩ : timespec).normalised ∧
    (timespec_subtract ilp32 ⟨5, 0⟩ ⟨6, 500000000⟩).2.2 = ⟨7, -500000000⟩ ∧
    ¬ (timespec_subtract ilp32 ⟨5, 0⟩ ⟨6, 500000000⟩).2.2.normalised ∧
    msgq_recv_timedwait ilp32 Sample.endpoint (some ⟨6, 500000000⟩) 0 [Sample.wake_spurious] =
      { blocked := true, ret := none, errno := 0, msgq := Sample.endpoint,
        abstime := some ⟨7, -500000000⟩, waits := 1 } := by
  refine ⟨by decide, by decide, by decide, by decide, by decide⟩

/-! ## The index of the last payload byte -/

/-- The test of the last payload byte in `msgq_copy_packet` reads `data` at
`msgq_copy_packet_index`: when that index is outside the storage, the call is
a `Fault`. -/
theorem msgq_copy_packet_reads_index (P : Platform) (m : Malloc) (packet : msgq_packet)
    (h : packet.data.get? (msgq_copy_packet_index P packet) = none) :
    msgq_copy_packet P m packet = .error .out_of_bounds := by
  unfold msgq_copy_packet_index at h
  unfold msgq_copy_packet
  simp only [h]

/-- For a packet with at least one payload byte the index of the test is the
last index of the payload. -/
theorem msgq_copy_packet_index_of_pos (P : Platform) (packet : msgq_packet)
    (h1 : 1 ≤ packet.size) (hsb : packet.size < 2 ^ P.sizeBits) :
    msgq_copy_packet_index P packet = packet.size - 1 ∧
    msgq_copy_packet_index P packet < packet.size := by
  unfold msgq_copy_packet_index
  rw [last_index P.sizeBits packet.size h1 hsb]
  exact ⟨rfl, by omega⟩

/-- For a packet of size 0 in the receive buffer the index of the test is the
largest value of the type of `size`, outside the buffer, and
`msgq_copy_packet` is a `Fault`. -/
theorem msgq_copy_packet_of_empty (P : Platform) (hP : P.wf) (m : Malloc) (packet : msgq_packet)
    (h0 : packet.size = 0) (hbuf : P.hdr + packet.data.length ≤ P.MSGQ_MSG_MAX) :
    msgq_copy_packet_index P packet = 2 ^ P.sizeBits - 1 ∧
    ¬ msgq_copy_packet_index P packet < packet.size ∧
    msgq_copy_packet P m packet = .error .out_of_bounds := by
  obtain ⟨hs, hsw, hh, hms, hm, _⟩ := hP
  have hidx : msgq_copy_packet_index P packet = 2 ^ P.sizeBits - 1 := by
    unfold msgq_copy_packet_index
    rw [h0, Nat.zero_add, Nat.mod_eq_of_lt (by omega)]
  refine ⟨hidx, by rw [h0]; omega, ?_⟩
  apply msgq_copy_packet_reads_index
  rw [hidx]
  exact List.get?_eq_none.mpr (by omega)

/-- C15 (evaluation at the failing input).  On ILP32 the header-only datagram
that `msgq_send` builds for an empty payload is accepted by `validate_packet`
with size 0; the index `size - 1` of the test in `msgq_copy_packet` is then
`0xFFFFFFFF`, not below `size`, the read is outside the payload and the
buffer, and the pass of the receiver loop is a `Fault`. -/
theorem copy_index_outside_empty_payload :
    msgq_send ilp32 Sample.heap [47, 97] [] 0 0 = .ok (0, some (Sample.frame [])) ∧
    validate_packet ilp32 (recvfrom_whole ilp32 (Sample.frame []) [47, 98] [] 0).pkbuf 8
      = (0, ⟨0, none, []⟩) ∧
    msgq_copy_packet_index ilp32 ⟨0, none, []⟩ = 4294967295 ∧
    ¬ msgq_copy_packet_index ilp32 ⟨0, none, []⟩ < (⟨0, none, []⟩ : msgq_packet).size ∧
    msgq_copy_packet ilp32 Sample.heap ⟨0, none, []⟩ = .error .out_of_bounds ∧
    msgq_receiver_body ilp32 Sample.endpoint
        (recvfrom_whole ilp32 (Sample.frame []) [47, 98] [] 0) Sample.heap Sample.heap
      = .error .out_of_bounds ∧
    msgq_receiver_body ilp32 Sample.endpoint
        (recvfrom_whole ilp32 (Sample.frame []) [47, 98] [9, 9, 9, 9] 0) Sample.heap Sample.heap
      = .error .out_of_bounds := by
  refine ⟨by decide, by decide, by decide, by decide, by decide, by decide, by decide⟩

/-! ## Cases left out of the amended claims -/

/-- A sender address of `UNIX_PATH_MAX - 1` characters gets no terminator from
`strncpy(p->sender, sender, UNIX_PATH_MAX - 1)`: the last byte of `sender` is
what `malloc` left there, and when that is not NUL the array holds no C
string. -/
theorem sender_array_unterminated (s : List Byte) (u : Nat) (junk : Nat → Byte)
    (hnul : (0 : Byte) ∉ s) (hu : 0 < u) (hlen : s.length = u - 1) (hj : junk (u - 1) ≠ 0) :
    cstr (strncpy s (u - 1) ++ (Malloc.block junk u).drop (u - 1)) = .error .out_of_bounds := by
  obtain ⟨k, rfl⟩ : ∃ k, u = k + 1 := ⟨u - 1, by omega⟩
  simp only [Nat.add_sub_cancel] at hlen hj ⊢
  unfold strncpy cstr
  rw [List.take_of_length_le (by omega), hlen, Nat.sub_self, List.replicate_zero,
    List.append_nil, block_drop_last]
  have hmem : (0 : Byte) ∉ s ++ [junk k] := by
    simp only [List.mem_append, List.mem_singleton, not_or]
    exact ⟨hnul, fun h => hj h.symm⟩
  rw [if_neg hmem]

/-- On ILP32 the 4 bytes `shut` sent by the endpoint to itself are taken for
the control message when the bytes `down` of an earlier datagram lie behind
them in the receive buffer, and are appended to the queue when they do not:
for a payload that is a shorter initial segment of `shutdown` the comparison
of 8 bytes reads past the payload. -/
theorem short_head_depends_on_stale_bytes :
    msgq_receiver_body ilp32 Sample.endpoint
        (recvfrom_whole ilp32 (Sample.frame [115, 104, 117, 116]) Sample.endpoint.address
          [9, 9, 9, 9, 100, 111, 119, 110] 0) Sample.heap Sample.heap
      = .ok (.shutdown, Sample.endpoint) ∧
    (msgq_receiver_body ilp32 Sample.endpoint
        (recvfrom_whole ilp32 (Sample.frame [115, 104, 117, 116]) Sample.endpoint.address
          [9, 9, 9, 9, 9, 9, 9, 9] 0) Sample.heap Sample.heap).map
        (fun res => (res.1, res.2.recvq.map (fun np => np.packet.payload)))
      = .ok (.enqueued false, [[115, 104, 117, 116]]) := by
  refine ⟨by decide, by decide⟩

end Msgq
